import Mathlib

/-!
# Verification of the reactive-wrapper core (`packages/reactivity/src/reactive.ts`)

A shallow embedding of the reactive-wrapper factory: JS values are a small
inductive type, the JS heap is an association list from addresses to objects,
and the four mode registries (`reactiveMap`, `shallowReactiveMap`,
`readonlyMap`, `shallowReadonlyMap`) are association lists from target
addresses to wrapper addresses.

A heap object is either a plain object (carrying its `Object.prototype.toString`
class name, its extensibility bit, and its own `__v_*` flag properties — all
absent on a freshly created object, but settable, which models both `markRaw`
and spoofed flag keys) or a proxy created by `createReactiveObject` (carrying
its target address and its mode).

The flag-answering behaviour of proxies lives in `baseHandlers.ts` /
`collectionHandlers.ts`, which are not part of the sources under review; it is
modelled from the spec, §4.2 (see `getPropFuel`).  Everything else is a direct
translation of `reactive.ts`.

Recursive heap walks (`toRaw`, the skip read forwarded through a proxy chain,
the `isReactive` delegation) are written with an explicit fuel argument; the
public wrappers use `nextAddr` as fuel, which is always sufficient on
well-formed heaps because a proxy's target address is strictly smaller than
the proxy's own address.
-/

namespace VueReactivity

/-- A JS value: `null`, `undefined`, number, string, boolean, a function
(opaque — only its non-object-ness and truthiness matter here), or a
reference to a heap object. -/
inductive Value where
  | vnull
  | vundefined
  | vnum (n : Int)
  | vstr (s : String)
  | vbool (b : Bool)
  | vfun
  | vobj (a : Nat)
deriving DecidableEq, Repr

/-- JS truthiness (`!!v`).  `NaN` and the empty-string corner behave as in JS
for the values representable here. -/
def truthy : Value → Bool
  | .vnull => false
  | .vundefined => false
  | .vnum n => n != 0
  | .vstr s => s != ""
  | .vbool b => b
  | .vfun => true
  | .vobj _ => true

/-- `isObject` from `@vue/shared`: `val !== null && typeof val === 'object'`.
Functions are not objects for this test. -/
def isObject : Value → Bool
  | .vobj _ => true
  | _ => false

/-- The five reserved flag keys of `ReactiveFlags` (`constants.ts`):
`__v_skip`, `__v_isReactive`, `__v_isReadonly`, `__v_isShallow`, `__v_raw`. -/
inductive Flag where
  | skip
  | isReactiveF
  | isReadonlyF
  | isShallowF
  | raw
deriving DecidableEq, Repr

/-- The own data of a plain (non-proxy) object: its
`Object.prototype.toString` class name (the `toRawType` result, e.g.
`"Object"`, `"Array"`, `"Map"`), its extensibility, and its own `__v_*` flag
properties.  `skip = true` models an own truthy `__v_skip` property (as set by
`markRaw` via `def`); the `own*` fields model own (possibly spoofed) flag
properties, absent on honest plain objects. -/
structure ObjData where
  className : String
  extensible : Bool
  skip : Bool
  ownIsReactive : Bool
  ownIsReadonly : Bool
  ownIsShallow : Bool
  ownRaw : Option Value
deriving DecidableEq, Repr

/-- A heap object: a plain object, or a proxy built by `createReactiveObject`
over a target address with a readonly bit, a shallow bit, and whether the
collection handlers were selected. -/
inductive HeapObj where
  | plain (d : ObjData)
  | proxy (tgt : Nat) (ro : Bool) (sh : Bool) (coll : Bool)
deriving DecidableEq, Repr

/-- Association-list lookup keyed by address (first match wins, as for a cons
update). -/
def assocFind {α : Type} (k : Nat) : List (Nat × α) → Option α
  | [] => none
  | (k', v) :: t => if k = k' then some v else assocFind k t

/-- The global state: the heap and the four mode registries of `reactive.ts`
(`reactiveMap`, `shallowReactiveMap`, `readonlyMap`, `shallowReadonlyMap`),
plus a fresh-address counter. -/
structure State where
  heap : List (Nat × HeapObj)
  reactiveMap : List (Nat × Nat)
  shallowReactiveMap : List (Nat × Nat)
  readonlyMap : List (Nat × Nat)
  shallowReadonlyMap : List (Nat × Nat)
  nextAddr : Nat
deriving DecidableEq, Repr

/-- Which of the four registries a constructor passes to
`createReactiveObject`. -/
inductive MapSel where
  | reactiveM
  | shallowReactiveM
  | readonlyM
  | shallowReadonlyM
deriving DecidableEq, Repr

def getMap (s : State) : MapSel → List (Nat × Nat)
  | .reactiveM => s.reactiveMap
  | .shallowReactiveM => s.shallowReactiveMap
  | .readonlyM => s.readonlyMap
  | .shallowReadonlyM => s.shallowReadonlyMap

/-- `proxyMap.set(target, proxy)`. -/
def insertMap (s : State) (sel : MapSel) (k p : Nat) : State :=
  match sel with
  | .reactiveM => { s with reactiveMap := (k, p) :: s.reactiveMap }
  | .shallowReactiveM => { s with shallowReactiveMap := (k, p) :: s.shallowReactiveMap }
  | .readonlyM => { s with readonlyMap := (k, p) :: s.readonlyMap }
  | .shallowReadonlyM => { s with shallowReadonlyMap := (k, p) :: s.shallowReadonlyMap }

/-- Reading an own flag property off a plain object: an absent property reads
as `undefined`, a present one as its (truthy) value. -/
def plainProp (d : ObjData) : Flag → Value
  | .skip => if d.skip then .vbool true else .vundefined
  | .isReactiveF => if d.ownIsReactive then .vbool true else .vundefined
  | .isReadonlyF => if d.ownIsReadonly then .vbool true else .vundefined
  | .isShallowF => if d.ownIsShallow then .vbool true else .vundefined
  | .raw => d.ownRaw.getD .vundefined

/-- Reading a flag key off a value, with fuel for the proxy walk.

Property access on a primitive yields `undefined`; on a plain object it reads
the own property (`plainProp`).

Modelled from the spec: for a proxy the five reserved keys are answered by the
Interception Layer (`baseHandlers.ts` / `collectionHandlers.ts`, not among the
sources under review), as specified in §4.2 of the design: `is-reactive` is
true iff the wrapper's mode is non-readonly, `is-readonly` iff it is readonly,
`is-shallow` iff it is shallow, `raw` yields the directly-wrapped value, and
`skip` is an own-property check, which the proxy machinery forwards to the
target.

Reading a property off `null`/`undefined` throws in JS; every call site in
`reactive.ts` guards with a truthiness or `isObject` test first, so the
`vundefined` answer in those two cases is dead code here (the fallible variant
`getPropExc` makes the distinction explicit). -/
def getPropFuel (s : State) : Nat → Value → Flag → Value
  | _, .vnull, _ => .vundefined
  | _, .vundefined, _ => .vundefined
  | _, .vnum _, _ => .vundefined
  | _, .vstr _, _ => .vundefined
  | _, .vbool _, _ => .vundefined
  | _, .vfun, _ => .vundefined
  | fuel, .vobj a, k =>
    match assocFind a s.heap with
    | none => .vundefined
    | some (.plain d) => plainProp d k
    | some (.proxy tgt ro sh _) =>
      match k with
      | .skip =>
        match fuel with
        | 0 => .vundefined
        | f + 1 => getPropFuel s f (.vobj tgt) .skip
      | .isReactiveF => .vbool (!ro)
      | .isReadonlyF => .vbool ro
      | .isShallowF => .vbool sh
      | .raw => .vobj tgt

def getProp (s : State) (v : Value) (k : Flag) : Value :=
  getPropFuel s s.nextAddr v k

/-- `Object.isExtensible` on a heap object; a proxy without an extensibility
trap forwards to its target. -/
def isExtensibleFuel (s : State) : Nat → Nat → Bool
  | fuel, a =>
    match assocFind a s.heap with
    | none => false
    | some (.plain d) => d.extensible
    | some (.proxy tgt _ _ _) =>
      match fuel with
      | 0 => false
      | f + 1 => isExtensibleFuel s f tgt

def isExtensible (s : State) (a : Nat) : Bool :=
  isExtensibleFuel s s.nextAddr a

/-- `toRawType` from `@vue/shared`: the `Object.prototype.toString` class-name
slice.  A proxy forwards the `Symbol.toStringTag` lookup to its target, so it
reports the target's class name. -/
def toRawTypeFuel (s : State) : Nat → Nat → String
  | fuel, a =>
    match assocFind a s.heap with
    | none => ""
    | some (.plain d) => d.className
    | some (.proxy tgt _ _ _) =>
      match fuel with
      | 0 => ""
      | f + 1 => toRawTypeFuel s f tgt

def toRawType (s : State) (a : Nat) : String :=
  toRawTypeFuel s s.nextAddr a

/-- `TargetType` from `reactive.ts`. -/
inductive TargetType where
  | INVALID
  | COMMON
  | COLLECTION
deriving DecidableEq, Repr

/-- `targetTypeMap` from `reactive.ts`: `Object`/`Array` are COMMON,
`Map`/`Set`/`WeakMap`/`WeakSet` are COLLECTION, everything else INVALID. -/
def targetTypeMap (rawType : String) : TargetType :=
  if rawType = "Object" ∨ rawType = "Array" then .COMMON
  else if rawType = "Map" ∨ rawType = "Set" ∨ rawType = "WeakMap" ∨ rawType = "WeakSet" then
    .COLLECTION
  else .INVALID

/-- `getTargetType` from `reactive.ts`: INVALID when the value carries the
skip flag or is non-extensible, otherwise classify by `toRawType`. -/
def getTargetType (s : State) (a : Nat) : TargetType :=
  if truthy (getProp s (.vobj a) .skip) || !isExtensible s a then .INVALID
  else targetTypeMap (toRawType s a)

/-- `createReactiveObject` from `reactive.ts`.  The handler pair a caller
passes is determined by its mode, so it is represented here by the readonly
and shallow bits; the proxy records which handler family (collection or base)
was selected.  Steps, in source order: non-object passthrough (the dev-only
`warn` has no modelled effect); the raw-flag early return with its
readonly-over-reactive exception; the registry lookup; classification with
INVALID passthrough; proxy construction and registration. -/
def createReactiveObject (s : State) (target : Value) (isReadonly2 : Bool) (sh : Bool)
    (sel : MapSel) : Value × State :=
  match target with
  | .vobj a =>
    if truthy (getProp s target .raw) &&
        !(isReadonly2 && truthy (getProp s target .isReactiveF)) then
      (target, s)
    else
      match assocFind a (getMap s sel) with
      | some p => (.vobj p, s)
      | none =>
        let targetType := getTargetType s a
        if targetType = .INVALID then (target, s)
        else
          let p := s.nextAddr
          let s' := { s with
            heap := (p, .proxy a isReadonly2 sh (targetType = .COLLECTION)) :: s.heap,
            nextAddr := p + 1 }
          (.vobj p, insertMap s' sel a p)
  | _ => (target, s)

/-- `isReadonly` from `reactive.ts`: `!!(value && value[IS_READONLY])`. -/
def isReadonly (s : State) (v : Value) : Bool :=
  truthy v && truthy (getProp s v .isReadonlyF)

/-- `isShallow` from `reactive.ts`: `!!(value && value[IS_SHALLOW])`. -/
def isShallow (s : State) (v : Value) : Bool :=
  truthy v && truthy (getProp s v .isShallowF)

/-- `isProxy` from `reactive.ts`: `value ? !!value[RAW] : false`. -/
def isProxy (s : State) (v : Value) : Bool :=
  truthy v && truthy (getProp s v .raw)

/-- `isReactive` from `reactive.ts`, with fuel for the delegation through the
raw chain: `if (isReadonly(value)) return isReactive(value[RAW]); return
!!(value && value[IS_REACTIVE])`. -/
def isReactiveFuel (s : State) : Nat → Value → Bool
  | 0, _ => false
  | f + 1, v =>
    if isReadonly s v then isReactiveFuel s f (getProp s v .raw)
    else truthy v && truthy (getProp s v .isReactiveF)

def isReactive (s : State) (v : Value) : Bool :=
  isReactiveFuel s s.nextAddr v

/-- `reactive` from `reactive.ts`: the readonly precheck, then
`createReactiveObject(target, false, mutableHandlers, mutableCollectionHandlers,
reactiveMap)`. -/
def reactive (s : State) (target : Value) : Value × State :=
  if isReadonly s target then (target, s)
  else createReactiveObject s target false false .reactiveM

/-- `shallowReactive` from `reactive.ts`. -/
def shallowReactive (s : State) (target : Value) : Value × State :=
  createReactiveObject s target false true .shallowReactiveM

/-- `readonly` from `reactive.ts`. -/
def readonly (s : State) (target : Value) : Value × State :=
  createReactiveObject s target true false .readonlyM

/-- `shallowReadonly` from `reactive.ts`. -/
def shallowReadonly (s : State) (target : Value) : Value × State :=
  createReactiveObject s target true true .shallowReadonlyM

/-- One step of `toRaw`: `const raw = observed && observed[RAW]`; `some raw`
when that is truthy (so `toRaw` recurses), `none` when `toRaw` returns
`observed`. -/
def toRawStep (s : State) (v : Value) : Option Value :=
  if truthy v then
    let r := getProp s v .raw
    if truthy r then some r else none
  else none

/-- `toRaw` from `reactive.ts`, with fuel for the recursion along the raw
chain. -/
def toRawFuel (s : State) : Nat → Value → Value
  | 0, v => v
  | f + 1, v =>
    match toRawStep s v with
    | some r => toRawFuel s f r
    | none => v

def toRaw (s : State) (v : Value) : Value :=
  toRawFuel s s.nextAddr v

/-- Replace the heap object at an address, leaving every other entry alone
(`def`'s `Object.defineProperty` on an existing object). -/
def updateHeap (s : State) (a : Nat) (ho : HeapObj) : State :=
  { s with heap := s.heap.map fun e => if e.1 = a then (e.1, ho) else e }

/-- The heap effect of `markRaw` from `reactive.ts` at an address:
`if (!hasOwn(value, SKIP) && Object.isExtensible(value)) def(value, SKIP,
true)`.  On a proxy both `hasOwn` and `defineProperty` forward to the target,
so the proxy case forwards (fuel bounds the chain). -/
def markRawAddr (s : State) : Nat → Nat → State
  | fuel, a =>
    match assocFind a s.heap with
    | none => s
    | some (.plain d) =>
      if !d.skip && d.extensible then updateHeap s a (.plain { d with skip := true })
      else s
    | some (.proxy tgt _ _ _) =>
      match fuel with
      | 0 => s
      | f + 1 => markRawAddr s f tgt

def markRaw (s : State) (v : Value) : Value × State :=
  match v with
  | .vobj a => (.vobj a, markRawAddr s s.nextAddr a)
  | _ => (v, s)

/-- `toReactive` from `reactive.ts`: identity on non-objects, else delegate. -/
def toReactive (s : State) (v : Value) : Value × State :=
  if isObject v then reactive s v else (v, s)

/-- `toReadonly` from `reactive.ts`: identity on non-objects, else delegate. -/
def toReadonly (s : State) (v : Value) : Value × State :=
  if isObject v then readonly s v else (v, s)

/-- The four wrapping modes (mutable/readonly × deep/shallow), each naming its
public constructor. -/
inductive Mode where
  | mutableDeep
  | mutableShallow
  | readonlyDeep
  | readonlyShallow
deriving DecidableEq, Repr

/-- The public constructor for a mode. -/
def construct : Mode → State → Value → Value × State
  | .mutableDeep => reactive
  | .mutableShallow => shallowReactive
  | .readonlyDeep => readonly
  | .readonlyShallow => shallowReadonly

def Mode.ro : Mode → Bool
  | .mutableDeep => false
  | .mutableShallow => false
  | .readonlyDeep => true
  | .readonlyShallow => true

def Mode.sh : Mode → Bool
  | .mutableDeep => false
  | .mutableShallow => true
  | .readonlyDeep => false
  | .readonlyShallow => true

def Mode.sel : Mode → MapSel
  | .mutableDeep => .reactiveM
  | .mutableShallow => .shallowReactiveM
  | .readonlyDeep => .readonlyM
  | .readonlyShallow => .shallowReadonlyM

/-!
## Well-formedness

`WF` is the structural heap invariant every state reachable by the API from an
empty heap satisfies: heap keys are distinct and below the fresh-address
counter, and a proxy's target is a strictly smaller, allocated address (a
proxy is always created after its target).  `GoodState` adds that each
registry maps a target address to a wrapper of that registry's mode over that
target.  Both are decidable, so concrete states can be checked by `decide`.
-/

/-- The per-object part of the heap invariant: a proxy's target is a strictly
smaller, allocated address. -/
def proxyOk (s : State) (a : Nat) : HeapObj → Prop
  | .plain _ => True
  | .proxy tgt _ _ _ => tgt < a ∧ (assocFind tgt s.heap).isSome

instance (s : State) (a : Nat) (ho : HeapObj) : Decidable (proxyOk s a ho) := by
  cases ho with
  | plain d => exact .isTrue trivial
  | proxy tgt ro sh c => unfold proxyOk; exact instDecidableAnd

def WF (s : State) : Prop :=
  s.heap.Pairwise (fun e₁ e₂ => e₁.1 ≠ e₂.1) ∧
    ∀ e ∈ s.heap, e.1 < s.nextAddr ∧ proxyOk s e.1 e.2

/-- A registry is well-typed for a mode: every entry maps a key to a proxy of
that mode whose target is the key. -/
def MapWT (s : State) (m : List (Nat × Nat)) (ro sh : Bool) : Prop :=
  ∀ e ∈ m, ∃ c, assocFind e.2 s.heap = some (.proxy e.1 ro sh c)

def GoodState (s : State) : Prop :=
  WF s ∧ MapWT s s.reactiveMap false false ∧ MapWT s s.shallowReactiveMap false true ∧
    MapWT s s.readonlyMap true false ∧ MapWT s s.shallowReadonlyMap true true

instance (s : State) : Decidable (WF s) := by
  unfold WF
  exact instDecidableAnd

instance (s : State) (m : List (Nat × Nat)) (ro sh : Bool) : Decidable (MapWT s m ro sh) := by
  unfold MapWT
  exact List.decidableBAll _ m

instance (s : State) : Decidable (GoodState s) := by
  unfold GoodState
  exact instDecidableAnd

/-- A plain object with no own reactivity flags at all — what any object
looks like before `markRaw` or spoofing touches it. -/
def cleanData (d : ObjData) : Prop :=
  d.skip = false ∧ d.ownIsReactive = false ∧ d.ownIsReadonly = false ∧
    d.ownIsShallow = false ∧ d.ownRaw = none

instance (d : ObjData) : Decidable (cleanData d) := by
  unfold cleanData
  exact instDecidableAnd

/-- Eligibility for wrapping, as the classifier sees a plain object. -/
def eligibleData (d : ObjData) : Prop :=
  d.skip = false ∧ d.extensible = true ∧ targetTypeMap d.className ≠ .INVALID

instance (d : ObjData) : Decidable (eligibleData d) := by
  unfold eligibleData
  exact instDecidableAnd

/-!
## Basic lemmas about the heap primitives
-/

@[simp]
theorem assocFind_nil {α : Type} (k : Nat) : assocFind (α := α) k [] = none := rfl

@[simp]
theorem assocFind_cons {α : Type} (k k' : Nat) (v : α) (t : List (Nat × α)) :
    assocFind k ((k', v) :: t) = if k = k' then some v else assocFind k t := rfl

theorem assocFind_mem {α : Type} {k : Nat} {l : List (Nat × α)} {v : α}
    (h : assocFind k l = some v) : (k, v) ∈ l := by
  induction l with
  | nil => simp at h
  | cons e t ih =>
    obtain ⟨k', v'⟩ := e
    by_cases hk : k = k'
    · subst hk
      simp at h
      simp [h]
    · simp [assocFind, hk] at h
      exact List.mem_cons_of_mem _ (ih h)

/-- On a well-formed heap, addresses at or above the fresh counter are
unallocated. -/
theorem assocFind_fresh {s : State} (hW : WF s) {p : Nat} (hp : s.nextAddr ≤ p) :
    assocFind p s.heap = none := by
  cases h : assocFind p s.heap with
  | none => rfl
  | some ho =>
    have hm := assocFind_mem h
    have h1 : p < s.nextAddr := (hW.2 _ hm).1
    exact absurd h1 (Nat.not_lt.mpr hp)

theorem assocFind_isSome_cons {α : Type} {k : Nat} {l : List (Nat × α)} (e : Nat × α)
    (h : (assocFind k l).isSome) : (assocFind k (e :: l)).isSome := by
  obtain ⟨k', v'⟩ := e
  by_cases hk : k = k' <;> simp [hk, h]

/-!
## Reduction lemmas for the fueled heap walks
-/

theorem getPropFuel_plain {s : State} {a : Nat} {d : ObjData}
    (h : assocFind a s.heap = some (.plain d)) (fuel : Nat) (k : Flag) :
    getPropFuel s fuel (.vobj a) k = plainProp d k := by
  cases fuel <;> (rw [getPropFuel.eq_def]; simp [h])

theorem getPropFuel_proxy_isReactive {s : State} {a tgt : Nat} {ro sh c : Bool}
    (h : assocFind a s.heap = some (.proxy tgt ro sh c)) (fuel : Nat) :
    getPropFuel s fuel (.vobj a) .isReactiveF = .vbool (!ro) := by
  cases fuel <;> (rw [getPropFuel.eq_def]; simp [h])

theorem getPropFuel_proxy_isReadonly {s : State} {a tgt : Nat} {ro sh c : Bool}
    (h : assocFind a s.heap = some (.proxy tgt ro sh c)) (fuel : Nat) :
    getPropFuel s fuel (.vobj a) .isReadonlyF = .vbool ro := by
  cases fuel <;> (rw [getPropFuel.eq_def]; simp [h])

theorem getPropFuel_proxy_isShallow {s : State} {a tgt : Nat} {ro sh c : Bool}
    (h : assocFind a s.heap = some (.proxy tgt ro sh c)) (fuel : Nat) :
    getPropFuel s fuel (.vobj a) .isShallowF = .vbool sh := by
  cases fuel <;> (rw [getPropFuel.eq_def]; simp [h])

theorem getPropFuel_proxy_raw {s : State} {a tgt : Nat} {ro sh c : Bool}
    (h : assocFind a s.heap = some (.proxy tgt ro sh c)) (fuel : Nat) :
    getPropFuel s fuel (.vobj a) .raw = .vobj tgt := by
  cases fuel <;> (rw [getPropFuel.eq_def]; simp [h])

theorem getPropFuel_proxy_skip {s : State} {a tgt : Nat} {ro sh c : Bool}
    (h : assocFind a s.heap = some (.proxy tgt ro sh c)) (f : Nat) :
    getPropFuel s (f + 1) (.vobj a) .skip = getPropFuel s f (.vobj tgt) .skip := by
  rw [getPropFuel.eq_def]; simp [h]

theorem isExtensibleFuel_plain {s : State} {a : Nat} {d : ObjData}
    (h : assocFind a s.heap = some (.plain d)) (fuel : Nat) :
    isExtensibleFuel s fuel a = d.extensible := by
  cases fuel <;> (rw [isExtensibleFuel.eq_def]; simp [h])

theorem isExtensibleFuel_proxy {s : State} {a tgt : Nat} {ro sh c : Bool}
    (h : assocFind a s.heap = some (.proxy tgt ro sh c)) (f : Nat) :
    isExtensibleFuel s (f + 1) a = isExtensibleFuel s f tgt := by
  rw [isExtensibleFuel.eq_def]; simp [h]

theorem toRawTypeFuel_plain {s : State} {a : Nat} {d : ObjData}
    (h : assocFind a s.heap = some (.plain d)) (fuel : Nat) :
    toRawTypeFuel s fuel a = d.className := by
  cases fuel <;> (rw [toRawTypeFuel.eq_def]; simp [h])

theorem toRawTypeFuel_proxy {s : State} {a tgt : Nat} {ro sh c : Bool}
    (h : assocFind a s.heap = some (.proxy tgt ro sh c)) (f : Nat) :
    toRawTypeFuel s (f + 1) a = toRawTypeFuel s f tgt := by
  rw [toRawTypeFuel.eq_def]; simp [h]

/-- Classification of a plain object, in terms of its data. -/
theorem getTargetType_plain {s : State} {a : Nat} {d : ObjData}
    (h : assocFind a s.heap = some (.plain d)) :
    getTargetType s a =
      if d.skip || !d.extensible then .INVALID else targetTypeMap d.className := by
  unfold getTargetType getProp isExtensible toRawType
  rw [getPropFuel_plain h, isExtensibleFuel_plain h, toRawTypeFuel_plain h]
  cases hs : d.skip <;> cases he : d.extensible <;> simp [plainProp, hs, truthy]

/-!
## Registry and state-update helpers
-/

def MapSel.roBit : MapSel → Bool
  | .reactiveM => false
  | .shallowReactiveM => false
  | .readonlyM => true
  | .shallowReadonlyM => true

def MapSel.shBit : MapSel → Bool
  | .reactiveM => false
  | .shallowReactiveM => true
  | .readonlyM => false
  | .shallowReadonlyM => true

@[simp]
theorem getMap_insertMap_same (s : State) (sel : MapSel) (k p : Nat) :
    getMap (insertMap s sel k p) sel = (k, p) :: getMap s sel := by
  cases sel <;> rfl

@[simp]
theorem heap_insertMap (s : State) (sel : MapSel) (k p : Nat) :
    (insertMap s sel k p).heap = s.heap := by
  cases sel <;> rfl

@[simp]
theorem nextAddr_insertMap (s : State) (sel : MapSel) (k p : Nat) :
    (insertMap s sel k p).nextAddr = s.nextAddr := by
  cases sel <;> rfl

theorem getMap_insertMap_other {sel sel' : MapSel} (h : sel' ≠ sel) (s : State) (k p : Nat) :
    getMap (insertMap s sel k p) sel' = getMap s sel' := by
  cases sel <;> cases sel' <;> first | rfl | exact absurd rfl h

@[simp]
theorem getMap_set_heap (s : State) (h : List (Nat × HeapObj)) (n : Nat) (sel : MapSel) :
    getMap { s with heap := h, nextAddr := n } sel = getMap s sel := by
  cases sel <;> rfl

theorem goodState_mapWT {s : State} (hG : GoodState s) (sel : MapSel) :
    MapWT s (getMap s sel) sel.roBit sel.shBit := by
  cases sel
  · exact hG.2.1
  · exact hG.2.2.1
  · exact hG.2.2.2.1
  · exact hG.2.2.2.2

/-!
## Behaviour of the factory on existing wrappers
-/

/-- The raw-flag early return of `createReactiveObject` (step 2): with a
genuine wrapper as target, the factory returns it unchanged unless the call is
readonly-mode and the wrapper is mutable. -/
theorem cro_on_proxy {s : State} {p tgt : Nat} {ro' sh' c' : Bool}
    (hp : assocFind p s.heap = some (.proxy tgt ro' sh' c'))
    {ro : Bool} (sh : Bool) (sel : MapSel) (hcond : ro = false ∨ ro' = true) :
    createReactiveObject s (.vobj p) ro sh sel = (.vobj p, s) := by
  unfold createReactiveObject
  rw [show getProp s (.vobj p) .raw = .vobj tgt from getPropFuel_proxy_raw hp _,
    show getProp s (.vobj p) .isReactiveF = .vbool (!ro') from getPropFuel_proxy_isReactive hp _]
  rcases hcond with h | h <;> subst h <;> simp [truthy]

/-- `isReadonly` on a genuine wrapper reports its mode's readonly bit. -/
theorem isReadonly_proxy {s : State} {p tgt : Nat} {ro' sh' c' : Bool}
    (hp : assocFind p s.heap = some (.proxy tgt ro' sh' c')) :
    isReadonly s (.vobj p) = ro' := by
  unfold isReadonly getProp
  rw [getPropFuel_proxy_isReadonly hp]
  simp [truthy]

/-- `isReadonly` on a plain object reads its own flag property. -/
theorem isReadonly_plain {s : State} {a : Nat} {d : ObjData}
    (ha : assocFind a s.heap = some (.plain d)) :
    isReadonly s (.vobj a) = d.ownIsReadonly := by
  unfold isReadonly getProp
  rw [getPropFuel_plain ha]
  cases h : d.ownIsReadonly <;> simp [plainProp, h, truthy]

/-- Every public constructor returns a genuine wrapper unchanged, except the
readonly constructors over a mutable wrapper. -/
theorem construct_on_proxy {s : State} {p tgt : Nat} {ro' sh' c' : Bool}
    (hp : assocFind p s.heap = some (.proxy tgt ro' sh' c'))
    (m : Mode) (hcond : m.ro = false ∨ ro' = true) :
    construct m s (.vobj p) = (.vobj p, s) := by
  cases m with
  | mutableDeep =>
    show reactive s (.vobj p) = (.vobj p, s)
    unfold reactive
    rw [isReadonly_proxy hp]
    cases h : ro'
    · simp only [Bool.false_eq_true, if_false]
      exact cro_on_proxy hp _ _ (Or.inl rfl)
    · simp
  | mutableShallow => exact cro_on_proxy hp _ _ (Or.inl rfl)
  | readonlyDeep =>
    rcases hcond with h | h
    · exact absurd h (by simp [Mode.ro])
    · exact cro_on_proxy hp _ _ (Or.inr h)
  | readonlyShallow =>
    rcases hcond with h | h
    · exact absurd h (by simp [Mode.ro])
    · exact cro_on_proxy hp _ _ (Or.inr h)

/-!
## The factory on a clean, eligible plain object
-/

/-- `getProp .raw` on a clean plain object is `undefined`. -/
theorem getProp_raw_clean {s : State} {a : Nat} {d : ObjData}
    (ha : assocFind a s.heap = some (.plain d)) (hc : cleanData d) :
    getProp s (.vobj a) .raw = .vundefined := by
  unfold getProp
  rw [getPropFuel_plain ha]
  simp [plainProp, hc.2.2.2.2]

/-- Step 3 of the factory: a clean plain target with a registry entry is
answered from the registry, with no state change. -/
theorem cro_hit {s : State} {a : Nat} {d : ObjData}
    (ha : assocFind a s.heap = some (.plain d)) (hc : cleanData d)
    {sel : MapSel} {p : Nat} (ro sh : Bool) (hreg : assocFind a (getMap s sel) = some p) :
    createReactiveObject s (.vobj a) ro sh sel = (.vobj p, s) := by
  unfold createReactiveObject
  rw [getProp_raw_clean ha hc]
  simp only [truthy, Bool.false_and, Bool.false_eq_true, if_false, hreg]

/-- What one factory call does to a clean, eligible plain target: it returns
a wrapper of the requested mode over the target (fresh, or the cached one),
records it in the requested registry, leaves every existing heap entry in
place, and preserves the global invariant. -/
theorem cro_clean_spec {s : State} (hG : GoodState s) {a : Nat} {d : ObjData}
    (ha : assocFind a s.heap = some (.plain d)) (hc : cleanData d) (he : eligibleData d)
    (sel : MapSel) :
    ∃ p c s',
      createReactiveObject s (.vobj a) sel.roBit sel.shBit sel = (.vobj p, s') ∧
      a < p ∧ p < s'.nextAddr ∧ s.nextAddr ≤ s'.nextAddr ∧
      assocFind p s'.heap = some (.proxy a sel.roBit sel.shBit c) ∧
      assocFind a s'.heap = some (.plain d) ∧
      assocFind a (getMap s' sel) = some p ∧
      GoodState s' ∧
      (∀ b ho, assocFind b s.heap = some ho → assocFind b s'.heap = some ho) := by
  have hWF := hG.1
  have hamem := assocFind_mem ha
  have haN : a < s.nextAddr := (hWF.2 _ hamem).1
  cases hreg : assocFind a (getMap s sel) with
  | some p =>
    obtain ⟨c, hpc⟩ := goodState_mapWT hG sel _ (assocFind_mem hreg)
    have hpmem := assocFind_mem hpc
    have hpN : p < s.nextAddr := (hWF.2 _ hpmem).1
    have hap : a < p := ((hWF.2 _ hpmem).2 : proxyOk s p _).1
    exact ⟨p, c, s, cro_hit ha hc _ _ hreg, hap, hpN, le_refl _, hpc, ha, hreg,
      hG, fun b ho h => h⟩
  | none =>
    have hTT : getTargetType s a = targetTypeMap d.className := by
      rw [getTargetType_plain ha]
      simp [hc.1, he.2.1]
    have hne : targetTypeMap d.className ≠ .INVALID := he.2.2
    refine ⟨s.nextAddr, (targetTypeMap d.className = TargetType.COLLECTION : Bool),
      insertMap
        { s with
          heap := (s.nextAddr,
            .proxy a sel.roBit sel.shBit
              (targetTypeMap d.className = TargetType.COLLECTION : Bool)) :: s.heap,
          nextAddr := s.nextAddr + 1 } sel a s.nextAddr,
      ?_, haN, ?_, ?_, ?_, ?_, ?_, ?_, ?_⟩
    case _ =>
      unfold createReactiveObject
      rw [getProp_raw_clean ha hc]
      simp only [truthy, Bool.false_and, Bool.false_eq_true, if_false, hreg, hTT]
      simp [hne]
    case _ => rw [nextAddr_insertMap]; exact Nat.lt_succ_self _
    case _ => rw [nextAddr_insertMap]; exact Nat.le_succ _
    case _ => rw [heap_insertMap]; simp
    case _ =>
      rw [heap_insertMap]
      simp only [assocFind_cons]
      rw [if_neg (by omega), ha]
    case _ =>
      rw [getMap_insertMap_same]
      simp
    case _ =>
      have hpres : ∀ b ho, assocFind b s.heap = some ho →
          assocFind b ((s.nextAddr,
            HeapObj.proxy a sel.roBit sel.shBit
              (targetTypeMap d.className = TargetType.COLLECTION : Bool)) :: s.heap) =
            some ho := by
        intro b ho h
        have hb : b < s.nextAddr := (hWF.2 _ (assocFind_mem h)).1
        rw [assocFind_cons, if_neg (by omega)]
        exact h
      constructor
      · -- WF
        constructor
        · rw [heap_insertMap]
          refine List.pairwise_cons.mpr ⟨?_, hWF.1⟩
          intro e hmem
          have : e.1 < s.nextAddr := (hWF.2 _ hmem).1
          omega
        · intro e hmem
          rw [heap_insertMap] at hmem
          rw [nextAddr_insertMap]
          rcases List.mem_cons.mp hmem with hcase | hcase
          · subst hcase
            refine ⟨Nat.lt_succ_self _, haN, ?_⟩
            rw [heap_insertMap, hpres a _ ha]
            rfl
          · refine ⟨Nat.lt_succ_of_lt (hWF.2 _ hcase).1, ?_⟩
            have hok := (hWF.2 _ hcase).2
            cases hobj : e.2 with
            | plain _ => trivial
            | proxy tgt ro2 sh2 c2 =>
              rw [hobj] at hok
              refine ⟨hok.1, ?_⟩
              rw [heap_insertMap]
              dsimp only
              cases hfind : assocFind tgt s.heap with
              | none =>
                have h2 : (assocFind tgt s.heap).isSome = true := hok.2
                rw [hfind] at h2
                exact absurd h2 (by simp)
              | some ho2 => rw [hpres tgt _ hfind]; rfl
      · -- the four MapWT conjuncts
        have hMWT : ∀ sel2 : MapSel,
            MapWT
              (insertMap
                { s with
                  heap := (s.nextAddr,
                    HeapObj.proxy a sel.roBit sel.shBit
                      (targetTypeMap d.className = TargetType.COLLECTION : Bool)) :: s.heap,
                  nextAddr := s.nextAddr + 1 } sel a s.nextAddr)
              (getMap
                (insertMap
                  { s with
                    heap := (s.nextAddr,
                      HeapObj.proxy a sel.roBit sel.shBit
                        (targetTypeMap d.className = TargetType.COLLECTION : Bool)) :: s.heap,
                    nextAddr := s.nextAddr + 1 } sel a s.nextAddr) sel2)
              sel2.roBit sel2.shBit := by
          intro sel2 e hmem
          by_cases hss : sel2 = sel
          · subst hss
            rw [getMap_insertMap_same, getMap_set_heap] at hmem
            rcases List.mem_cons.mp hmem with hcase | hcase
            · subst hcase
              refine ⟨(targetTypeMap d.className = TargetType.COLLECTION : Bool), ?_⟩
              rw [heap_insertMap]
              simp
            · obtain ⟨c2, h2⟩ := goodState_mapWT hG sel2 _ hcase
              refine ⟨c2, ?_⟩
              rw [heap_insertMap]
              exact hpres _ _ h2
          · rw [getMap_insertMap_other hss, getMap_set_heap] at hmem
            obtain ⟨c2, h2⟩ := goodState_mapWT hG sel2 _ hmem
            refine ⟨c2, ?_⟩
            rw [heap_insertMap]
            exact hpres _ _ h2
        exact ⟨hMWT .reactiveM, hMWT .shallowReactiveM, hMWT .readonlyM, hMWT .shallowReadonlyM⟩
    case _ =>
      intro b ho h
      have hb : b < s.nextAddr := (hWF.2 _ (assocFind_mem h)).1
      rw [heap_insertMap, assocFind_cons, if_neg (by omega)]
      exact h

/-- `construct_clean_spec`: the behaviour of each public constructor on a
clean, eligible plain target, lifted from `cro_clean_spec` through the
per-mode entry points (including `reactive`'s readonly precheck). -/
theorem construct_clean_spec {s : State} (hG : GoodState s) {a : Nat} {d : ObjData}
    (ha : assocFind a s.heap = some (.plain d)) (hc : cleanData d) (he : eligibleData d)
    (m : Mode) :
    ∃ p c s',
      construct m s (.vobj a) = (.vobj p, s') ∧
      a < p ∧ p < s'.nextAddr ∧ s.nextAddr ≤ s'.nextAddr ∧
      assocFind p s'.heap = some (.proxy a m.ro m.sh c) ∧
      assocFind a s'.heap = some (.plain d) ∧
      assocFind a (getMap s' m.sel) = some p ∧
      GoodState s' ∧
      (∀ b ho, assocFind b s.heap = some ho → assocFind b s'.heap = some ho) := by
  obtain ⟨p, c, s', h1, h2, h3, h4, h5, h6, h7, h8, h9⟩ := cro_clean_spec hG ha hc he m.sel
  refine ⟨p, c, s', ?_, h2, h3, h4, ?_, h6, h7, h8, h9⟩
  · cases m with
    | mutableDeep =>
      show reactive s (.vobj a) = _
      unfold reactive
      rw [isReadonly_plain ha, hc.2.2.1]
      simpa using h1
    | mutableShallow => exact h1
    | readonlyDeep => exact h1
    | readonlyShallow => exact h1
  · cases m <;> exact h5

/-- The second call on the same `(target, mode)` pair is a registry hit:
same wrapper, no state change. -/
theorem construct_clean_again {s₁ : State} {a p : Nat} {d : ObjData}
    (ha : assocFind a s₁.heap = some (.plain d)) (hc : cleanData d)
    (m : Mode) (hreg : assocFind a (getMap s₁ m.sel) = some p) :
    construct m s₁ (.vobj a) = (.vobj p, s₁) := by
  cases m with
  | mutableDeep =>
    show reactive s₁ (.vobj a) = _
    unfold reactive
    rw [isReadonly_plain ha, hc.2.2.1]
    simpa using cro_hit ha hc false false hreg
  | mutableShallow => exact cro_hit ha hc false true hreg
  | readonlyDeep => exact cro_hit ha hc true false hreg
  | readonlyShallow => exact cro_hit ha hc true true hreg

/-!
## Sample concrete states (used by the closed witness theorems)
-/

/-- A freshly created plain `{}` object: class `Object`, extensible, no flag
properties. -/
def sampleObj : ObjData :=
  ⟨"Object", true, false, false, false, false, none⟩

/-- A one-object heap with empty registries. -/
def sampleState : State :=
  ⟨[(0, .plain sampleObj)], [], [], [], [], 1⟩

/-!
## C1 — wrapping is idempotent and identity-stable
-/

/-- C1: for every eligible clean object `x` and every mode `m`, the
constructor returns a wrapper of mode `m` over `x`; a second independent call
with the same `(x, m)` returns the very same wrapper with no further state
change; and wrapping that wrapper again in the same mode returns the wrapper
itself. -/
theorem C1_wrapping_idempotent_identity_stable {s : State} (hG : GoodState s)
    {a : Nat} {d : ObjData}
    (ha : assocFind a s.heap = some (.plain d)) (hc : cleanData d) (he : eligibleData d)
    (m : Mode) :
    ∃ p s₁ c,
      construct m s (.vobj a) = (.vobj p, s₁) ∧
      assocFind p s₁.heap = some (.proxy a m.ro m.sh c) ∧
      construct m s₁ (.vobj a) = (.vobj p, s₁) ∧
      construct m s₁ (.vobj p) = (.vobj p, s₁) := by
  obtain ⟨p, c, s₁, h1, _, _, _, h5, h6, h7, h8, _⟩ := construct_clean_spec hG ha hc he m
  refine ⟨p, s₁, c, h1, h5, construct_clean_again h6 hc m h7, ?_⟩
  apply construct_on_proxy h5 m
  cases hb : m.ro with
  | false => exact Or.inl rfl
  | true => exact Or.inr rfl

/-- Closed witness for C1: the readonly-deep mode on the sample object. -/
theorem C1_witness :
    ∃ p s₁ c,
      construct .readonlyDeep sampleState (.vobj 0) = (.vobj p, s₁) ∧
      assocFind p s₁.heap =
        some (.proxy 0 Mode.readonlyDeep.ro Mode.readonlyDeep.sh c) ∧
      construct .readonlyDeep s₁ (.vobj 0) = (.vobj p, s₁) ∧
      construct .readonlyDeep s₁ (.vobj p) = (.vobj p, s₁) :=
  @C1_wrapping_idempotent_identity_stable sampleState (by decide) 0 sampleObj
    (by decide) (by decide) (by decide) .readonlyDeep

/-!
## C7 — readonly over readonly is an identity passthrough
-/

/-- A readonly-mode factory call either returns its argument unchanged or
returns a readonly wrapper (cached or fresh). -/
theorem cro_readonly_cases (s : State) (hG : GoodState s) (v : Value) :
    createReactiveObject s v true false .readonlyM = (v, s) ∨
    ∃ p tgt c s',
      createReactiveObject s v true false .readonlyM = (.vobj p, s') ∧
      assocFind p s'.heap = some (.proxy tgt true false c) := by
  cases v with
  | vobj a =>
    unfold createReactiveObject
    dsimp only
    by_cases hg : (truthy (getProp s (.vobj a) .raw) &&
        !(true && truthy (getProp s (.vobj a) .isReactiveF))) = true
    · rw [if_pos hg]
      exact Or.inl rfl
    · rw [if_neg hg]
      cases hreg : assocFind a (getMap s .readonlyM) with
      | some p =>
        obtain ⟨c, hpc⟩ := goodState_mapWT hG .readonlyM _ (assocFind_mem hreg)
        exact Or.inr ⟨p, a, c, s, rfl, hpc⟩
      | none =>
        by_cases hTT : getTargetType s a = TargetType.INVALID
        · rw [if_pos hTT]
          exact Or.inl rfl
        · rw [if_neg hTT]
          refine Or.inr ⟨s.nextAddr, a, (getTargetType s a = TargetType.COLLECTION : Bool),
            _, rfl, ?_⟩
          rw [heap_insertMap]
          simp
  | vnull => exact Or.inl rfl
  | vundefined => exact Or.inl rfl
  | vnum n => exact Or.inl rfl
  | vstr t => exact Or.inl rfl
  | vbool b => exact Or.inl rfl
  | vfun => exact Or.inl rfl

/-- C7: `readonly` over an already-readonly result is an identity
passthrough: whatever `readonly` returned for `x`, calling `readonly` again
on that result returns it unchanged, with no state change. -/
theorem C7_readonly_readonly_identity {s : State} (hG : GoodState s) (v : Value)
    {w : Value} {s₁ : State} (h : readonly s v = (w, s₁)) :
    readonly s₁ w = (w, s₁) := by
  unfold readonly at h ⊢
  rcases cro_readonly_cases s hG v with hcase | ⟨p, tgt, c, s', heq, hp⟩
  · rw [h] at hcase
    injection hcase with h1 h2
    subst h1
    subst h2
    exact h
  · rw [h] at heq
    injection heq with h1 h2
    subst h1
    subst h2
    exact cro_on_proxy hp _ _ (Or.inr rfl)

/-- Closed witness for C7 on the sample object. -/
theorem C7_witness :
    readonly (readonly sampleState (.vobj 0)).2 (readonly sampleState (.vobj 0)).1 =
      ((readonly sampleState (.vobj 0)).1, (readonly sampleState (.vobj 0)).2) :=
  @C7_readonly_readonly_identity sampleState (by decide) (.vobj 0)
    (readonly sampleState (.vobj 0)).1 (readonly sampleState (.vobj 0)).2 rfl

/-!
## C2 — the raw-flag re-wrap rule
-/

/-- C2 counterexample scenario: wrap a clean object, `markRaw` the original,
then request `readonly` of the mutable wrapper.  The target carries a raw
flag, the requested mode is readonly and the existing wrapper is
mutable-reactive — the claim's exception case — yet the factory returns the
target unchanged (the wrapper now classifies INVALID through the forwarded
skip flag), building nothing. -/
theorem C2_counterexample :
    truthy (getProp (markRaw (reactive sampleState (.vobj 0)).2 (.vobj 0)).2
        (.vobj 1) .raw) = true ∧
    isReactive (markRaw (reactive sampleState (.vobj 0)).2 (.vobj 0)).2 (.vobj 1) = true ∧
    readonly (markRaw (reactive sampleState (.vobj 0)).2 (.vobj 0)).2 (.vobj 1) =
      (.vobj 1, (markRaw (reactive sampleState (.vobj 0)).2 (.vobj 0)).2) := by
  decide

/-- C2 (amended): with a genuine wrapper as target, the factory returns it
unchanged unless the requested mode is readonly and the wrapper is
mutable-reactive; in that exception case it proceeds past the early return,
and then either still returns the target unchanged because it now classifies
INVALID, or produces a distinct readonly wrapper over it (cached or fresh). -/
theorem C2_rewrap_rule {s : State} (hG : GoodState s) {p tgt : Nat} {ro' sh' c' : Bool}
    (hp : assocFind p s.heap = some (.proxy tgt ro' sh' c')) (sel : MapSel) :
    (sel.roBit = false ∨ ro' = true →
        createReactiveObject s (.vobj p) sel.roBit sel.shBit sel = (.vobj p, s)) ∧
    (sel.roBit = true → ro' = false →
        createReactiveObject s (.vobj p) sel.roBit sel.shBit sel = (.vobj p, s) ∧
            getTargetType s p = TargetType.INVALID ∨
          ∃ q c s',
            createReactiveObject s (.vobj p) sel.roBit sel.shBit sel = (.vobj q, s') ∧
            p < q ∧ assocFind q s'.heap = some (.proxy p sel.roBit sel.shBit c)) := by
  constructor
  · intro hcond
    exact cro_on_proxy hp _ _ hcond
  · intro hro hro'
    have hguard : (truthy (getProp s (.vobj p) .raw) &&
        !(sel.roBit && truthy (getProp s (.vobj p) .isReactiveF))) = false := by
      unfold getProp
      rw [getPropFuel_proxy_raw hp, getPropFuel_proxy_isReactive hp, hro, hro']
      rfl
    unfold createReactiveObject
    dsimp only
    rw [if_neg (by rw [hguard]; exact Bool.false_ne_true)]
    cases hreg : assocFind p (getMap s sel) with
    | some q =>
      obtain ⟨c, hqc⟩ := goodState_mapWT hG sel _ (assocFind_mem hreg)
      have hq : p < q := ((hG.1.2 _ (assocFind_mem hqc)).2 : proxyOk s q _).1
      exact Or.inr ⟨q, c, s, rfl, hq, hqc⟩
    | none =>
      by_cases hTT : getTargetType s p = TargetType.INVALID
      · rw [if_pos hTT]
        exact Or.inl ⟨rfl, hTT⟩
      · rw [if_neg hTT]
        refine Or.inr ⟨s.nextAddr, (getTargetType s p = TargetType.COLLECTION : Bool), _,
          rfl, (hG.1.2 _ (assocFind_mem hp)).1, ?_⟩
        rw [heap_insertMap]
        simp

/-- Closed witness for C2 on a freshly built mutable wrapper, requesting
readonly. -/
theorem C2_witness :
    (MapSel.readonlyM.roBit = false ∨ false = true →
        createReactiveObject (reactive sampleState (.vobj 0)).2 (.vobj 1)
          MapSel.readonlyM.roBit MapSel.readonlyM.shBit .readonlyM =
          (.vobj 1, (reactive sampleState (.vobj 0)).2)) ∧
    (MapSel.readonlyM.roBit = true → false = false →
        createReactiveObject (reactive sampleState (.vobj 0)).2 (.vobj 1)
            MapSel.readonlyM.roBit MapSel.readonlyM.shBit .readonlyM =
            (.vobj 1, (reactive sampleState (.vobj 0)).2) ∧
            getTargetType (reactive sampleState (.vobj 0)).2 1 = TargetType.INVALID ∨
          ∃ q c s',
            createReactiveObject (reactive sampleState (.vobj 0)).2 (.vobj 1)
              MapSel.readonlyM.roBit MapSel.readonlyM.shBit .readonlyM = (.vobj q, s') ∧
            1 < q ∧
            assocFind q s'.heap =
              some (.proxy 1 MapSel.readonlyM.roBit MapSel.readonlyM.shBit c)) :=
  @C2_rewrap_rule (reactive sampleState (.vobj 0)).2 (by decide) 1 0 false false false
    (by decide) .readonlyM

/-!
## Readonly over a mutable-reactive wrapper
-/

/-- Classifying a proxy over a plain object: the skip, extensibility and
class-name reads all forward to the target. -/
theorem getTargetType_proxy_over_plain {s : State} {p a : Nat} {ro sh c : Bool} {d : ObjData}
    (hp : assocFind p s.heap = some (.proxy a ro sh c))
    (ha : assocFind a s.heap = some (.plain d)) (hn : 0 < s.nextAddr) :
    getTargetType s p =
      if d.skip || !d.extensible then .INVALID else targetTypeMap d.className := by
  obtain ⟨n, hn'⟩ : ∃ n, s.nextAddr = n + 1 := ⟨s.nextAddr - 1, by omega⟩
  unfold getTargetType getProp isExtensible toRawType
  rw [hn', getPropFuel_proxy_skip hp, getPropFuel_plain ha, isExtensibleFuel_proxy hp,
    isExtensibleFuel_plain ha, toRawTypeFuel_proxy hp, toRawTypeFuel_plain ha]
  cases hs : d.skip <;> cases hx : d.extensible <;> simp [plainProp, hs, truthy]

/-- `readonly` over a mutable-reactive wrapper of a clean eligible original:
the factory proceeds past the raw-flag early return and yields a distinct
readonly wrapper over the mutable wrapper (cached or fresh), registered under
the mutable wrapper's address. -/
theorem cro_readonly_over_reactive {s : State} (hG : GoodState s) {p a : Nat} {c : Bool}
    {d : ObjData} (hp : assocFind p s.heap = some (.proxy a false false c))
    (ha : assocFind a s.heap = some (.plain d)) (hc : cleanData d) (he : eligibleData d) :
    ∃ q c₂ s₂,
      readonly s (.vobj p) = (.vobj q, s₂) ∧ p < q ∧ q < s₂.nextAddr ∧
      assocFind q s₂.heap = some (.proxy p true false c₂) ∧
      assocFind p (getMap s₂ .readonlyM) = some q ∧
      (∀ b ho, assocFind b s.heap = some ho → assocFind b s₂.heap = some ho) ∧
      s.nextAddr ≤ s₂.nextAddr := by
  have hWF := hG.1
  have hpN : p < s.nextAddr := (hWF.2 _ (assocFind_mem hp)).1
  have hap : a < p := ((hWF.2 _ (assocFind_mem hp)).2 : proxyOk s p _).1
  have hguard : (truthy (getProp s (.vobj p) .raw) &&
      !(true && truthy (getProp s (.vobj p) .isReactiveF))) = false := by
    unfold getProp
    rw [getPropFuel_proxy_raw hp, getPropFuel_proxy_isReactive hp]
    rfl
  have hTT : getTargetType s p = targetTypeMap d.className := by
    rw [getTargetType_proxy_over_plain hp ha (by omega)]
    simp [hc.1, he.2.1]
  unfold readonly createReactiveObject
  dsimp only
  rw [if_neg (by rw [hguard]; exact Bool.false_ne_true)]
  cases hreg : assocFind p (getMap s .readonlyM) with
  | some q =>
    obtain ⟨c₂, hqc⟩ := goodState_mapWT hG .readonlyM _ (assocFind_mem hreg)
    have hqN : q < s.nextAddr := (hWF.2 _ (assocFind_mem hqc)).1
    have hpq : p < q := ((hWF.2 _ (assocFind_mem hqc)).2 : proxyOk s q _).1
    exact ⟨q, c₂, s, rfl, hpq, hqN, hqc, hreg, fun b ho h => h, le_refl _⟩
  | none =>
    rw [hTT]
    rw [if_neg he.2.2]
    refine ⟨s.nextAddr, (targetTypeMap d.className = TargetType.COLLECTION : Bool), _,
      rfl, hpN, ?_, ?_, ?_, ?_, ?_⟩
    · rw [nextAddr_insertMap]
      exact Nat.lt_succ_self _
    · rw [heap_insertMap]
      simp
    · rw [getMap_insertMap_same]
      simp
    · intro b ho h
      have hb : b < s.nextAddr := (hWF.2 _ (assocFind_mem h)).1
      rw [heap_insertMap, assocFind_cons, if_neg (by omega)]
      exact h
    · rw [nextAddr_insertMap]
      exact Nat.le_succ _

/-- `isReactive` on a readonly wrapper over a mutable wrapper delegates
through the raw flag and reports true. -/
theorem isReactive_readonly_over_mutable {s : State} {q p tgt : Nat}
    {sh2 c2 sh3 c3 : Bool}
    (hq : assocFind q s.heap = some (.proxy p true sh2 c2))
    (hp : assocFind p s.heap = some (.proxy tgt false sh3 c3))
    (hn : 2 ≤ s.nextAddr) :
    isReactive s (.vobj q) = true := by
  obtain ⟨n, hn'⟩ : ∃ n, s.nextAddr = n + 2 := ⟨s.nextAddr - 2, by omega⟩
  unfold isReactive
  rw [hn']
  show isReactiveFuel s (n + 2) (.vobj q) = true
  unfold isReactiveFuel
  rw [isReadonly_proxy hq]
  simp only [if_true, if_pos]
  have hq_raw : getProp s (.vobj q) .raw = .vobj p := by
    unfold getProp
    exact getPropFuel_proxy_raw hq _
  rw [hq_raw]
  unfold isReactiveFuel
  rw [isReadonly_proxy hp]
  simp only [Bool.false_eq_true, if_false]
  have hp_re : getProp s (.vobj p) .isReactiveF = .vbool true := by
    unfold getProp
    exact getPropFuel_proxy_isReactive hp _
  rw [hp_re]
  rfl

/-!
## toRaw step lemmas
-/

theorem toRawStep_proxy {s : State} {p tgt : Nat} {ro sh c : Bool}
    (hp : assocFind p s.heap = some (.proxy tgt ro sh c)) :
    toRawStep s (.vobj p) = some (.vobj tgt) := by
  unfold toRawStep getProp
  rw [getPropFuel_proxy_raw hp]
  rfl

theorem toRawStep_plain_clean {s : State} {a : Nat} {d : ObjData}
    (ha : assocFind a s.heap = some (.plain d)) (hc : cleanData d) :
    toRawStep s (.vobj a) = none := by
  unfold toRawStep
  rw [getProp_raw_clean ha hc]
  rfl

theorem toRawFuel_stops {s : State} {v : Value} (h : toRawStep s v = none) (fuel : Nat) :
    toRawFuel s fuel v = v := by
  cases fuel with
  | zero => rfl
  | succ f =>
    unfold toRawFuel
    rw [h]

theorem toRawFuel_step {s : State} {v r : Value} (h : toRawStep s v = some r) (f : Nat) :
    toRawFuel s (f + 1) v = toRawFuel s f r := by
  conv_lhs => unfold toRawFuel
  rw [h]

/-!
## C3 — readonly over a reactive wrapper
-/

/-- C3 counterexample: on the concrete heap, `readonly(reactive(x))` is built
over the intermediate reactive wrapper (address 1), not over the original
(address 0): its raw flag yields the wrapper, its heap entry targets the
wrapper, and the readonly registry is keyed by the wrapper — there is no
readonly-registry entry for the original. -/
theorem C3_counterexample :
    (reactive sampleState (.vobj 0)).1 = .vobj 1 ∧
    (readonly (reactive sampleState (.vobj 0)).2 (.vobj 1)).1 = .vobj 2 ∧
    getProp (readonly (reactive sampleState (.vobj 0)).2 (.vobj 1)).2 (.vobj 2) .raw =
      .vobj 1 ∧
    (Value.vobj 1 ≠ Value.vobj 0) ∧
    assocFind 2 (readonly (reactive sampleState (.vobj 0)).2 (.vobj 1)).2.heap =
      some (.proxy 1 true false false) ∧
    assocFind 0 (readonly (reactive sampleState (.vobj 0)).2 (.vobj 1)).2.readonlyMap =
      none := by
  decide

/-- C3 (amended): `readonly(reactive(x))` is a new wrapper distinct from
`reactive(x)`, built over the intermediate reactive wrapper (its raw flag
yields the wrapper, and the independent readonly-registry entry is keyed by
the wrapper, not by `x`); on it `isReadonly` and `isReactive` (delegated
through raw) are true, and `toRaw` recovers `x` through the two-step chain. -/
theorem C3_readonly_over_reactive_wrapper {s : State} (hG : GoodState s) {a : Nat}
    {d : ObjData} (ha : assocFind a s.heap = some (.plain d)) (hc : cleanData d)
    (he : eligibleData d) {w : Value} {s₁ : State} (h₁ : reactive s (.vobj a) = (w, s₁)) :
    ∃ p q c₂ s₂,
      w = .vobj p ∧
      readonly s₁ w = (.vobj q, s₂) ∧
      q ≠ p ∧
      assocFind q s₂.heap = some (.proxy p true false c₂) ∧
      getProp s₂ (.vobj q) .raw = .vobj p ∧
      assocFind p (getMap s₂ .readonlyM) = some q ∧
      isReadonly s₂ (.vobj q) = true ∧
      isReactive s₂ (.vobj q) = true ∧
      toRaw s₂ (.vobj q) = .vobj a := by
  obtain ⟨p, c, s₁', hcall, hap, hpN, hsn, hpe, hae, hreg, hG₁, hpres⟩ :=
    construct_clean_spec hG ha hc he .mutableDeep
  have hcall' : reactive s (.vobj a) = (.vobj p, s₁') := hcall
  rw [h₁] at hcall'
  injection hcall' with hw hs1
  subst hw
  subst hs1
  have hpe' : assocFind p s₁.heap = some (.proxy a false false c) := hpe
  obtain ⟨q, c₂, s₂, hro, hpq, hqN, hqe, hreg₂, hpres₂, hsn₂⟩ :=
    cro_readonly_over_reactive hG₁ hpe' hae hc he
  have hpe₂ : assocFind p s₂.heap = some (.proxy a false false c) := hpres₂ _ _ hpe'
  have hae₂ : assocFind a s₂.heap = some (.plain d) := hpres₂ _ _ hae
  refine ⟨p, q, c₂, s₂, rfl, hro, by omega, hqe, ?_, hreg₂, isReadonly_proxy hqe,
    isReactive_readonly_over_mutable hqe hpe₂ (by omega), ?_⟩
  · unfold getProp
    exact getPropFuel_proxy_raw hqe _
  · obtain ⟨n, hn'⟩ : ∃ n, s₂.nextAddr = n + 2 := ⟨s₂.nextAddr - 2, by omega⟩
    unfold toRaw
    rw [hn', toRawFuel_step (toRawStep_proxy hqe), toRawFuel_step (toRawStep_proxy hpe₂),
      toRawFuel_stops (toRawStep_plain_clean hae₂ hc)]

/-- Closed witness for C3 on the sample object. -/
theorem C3_witness :
    ∃ p q c₂ s₂,
      (reactive sampleState (.vobj 0)).1 = .vobj p ∧
      readonly (reactive sampleState (.vobj 0)).2 (reactive sampleState (.vobj 0)).1 =
        (.vobj q, s₂) ∧
      q ≠ p ∧
      assocFind q s₂.heap = some (.proxy p true false c₂) ∧
      getProp s₂ (.vobj q) .raw = .vobj p ∧
      assocFind p (getMap s₂ .readonlyM) = some q ∧
      isReadonly s₂ (.vobj q) = true ∧
      isReactive s₂ (.vobj q) = true ∧
      toRaw s₂ (.vobj q) = .vobj 0 :=
  @C3_readonly_over_reactive_wrapper sampleState (by decide) 0 sampleObj (by decide)
    (by decide) (by decide) (reactive sampleState (.vobj 0)).1
    (reactive sampleState (.vobj 0)).2 rfl

/-!
## C4 — toRaw follows the raw chain and terminates
-/

/-- No spoofed own `__v_raw` on any plain object (true of every state the API
builds from clean objects; spoofing is the subject of C10). -/
def plainRawFree : HeapObj → Prop
  | .plain d => d.ownRaw = none
  | .proxy _ _ _ _ => True

instance (ho : HeapObj) : Decidable (plainRawFree ho) := by
  cases ho with
  | plain d => unfold plainRawFree; infer_instance
  | proxy tgt ro sh c => exact .isTrue trivial

def rawSpoofFree (s : State) : Prop :=
  ∀ e ∈ s.heap, plainRawFree e.2

instance (s : State) : Decidable (rawSpoofFree s) := by
  unfold rawSpoofFree
  exact List.decidableBAll _ s.heap

theorem getPropFuel_nonobj (s : State) (fuel : Nat) (k : Flag) {v : Value}
    (h : isObject v = false) : getPropFuel s fuel v k = .vundefined := by
  cases v <;>
    first
    | (cases fuel <;> ((rw [getPropFuel.eq_def]) <;> rfl))
    | exact absurd h (by simp [isObject])

theorem toRawStep_nonobj {s : State} {v : Value} (h : isObject v = false) :
    toRawStep s v = none := by
  unfold toRawStep getProp
  rw [getPropFuel_nonobj s _ _ h]
  rcases ht : truthy v <;> simp [ht, truthy]

theorem getPropFuel_nofind {s : State} {a : Nat} (h : assocFind a s.heap = none)
    (fuel : Nat) (k : Flag) : getPropFuel s fuel (.vobj a) k = .vundefined := by
  cases fuel <;> (rw [getPropFuel.eq_def]; simp [h])

theorem toRawStep_nofind {s : State} {a : Nat} (h : assocFind a s.heap = none) :
    toRawStep s (.vobj a) = none := by
  unfold toRawStep getProp
  rw [getPropFuel_nofind h]
  simp [truthy]

/-- On a well-formed, raw-spoof-free heap, a `toRaw` walk with fuel above the
starting address always lands on a value with no further raw step: each step
moves to a strictly smaller address. -/
theorem toRaw_fix_aux {s : State} (hW : WF s) (hS : rawSpoofFree s) :
    ∀ fuel (v : Value), (∀ a, v = Value.vobj a → a < fuel) →
      toRawStep s (toRawFuel s fuel v) = none := by
  intro fuel
  induction fuel with
  | zero =>
    intro v hv
    have hno : isObject v = false := by
      cases v with
      | vobj a => exact absurd (hv a rfl) (by omega)
      | vnull => rfl
      | vundefined => rfl
      | vnum n => rfl
      | vstr t => rfl
      | vbool b => rfl
      | vfun => rfl
    show toRawStep s (toRawFuel s 0 v) = none
    exact toRawStep_nonobj hno
  | succ n ih =>
    intro v hv
    cases hstep : toRawStep s v with
    | none =>
      rw [toRawFuel_stops hstep]
      exact hstep
    | some r =>
      rw [toRawFuel_step hstep]
      cases v with
      | vobj a =>
        have ha : a < n + 1 := hv a rfl
        cases hfind : assocFind a s.heap with
        | none => rw [toRawStep_nofind hfind] at hstep; exact Option.noConfusion hstep
        | some ho =>
          cases hobj : ho with
          | plain d =>
            rw [hobj] at hfind
            have hfree : d.ownRaw = none := hS _ (assocFind_mem hfind)
            have : toRawStep s (.vobj a) = none := by
              unfold toRawStep getProp
              rw [getPropFuel_plain hfind]
              simp [plainProp, hfree, truthy]
            rw [this] at hstep
            exact Option.noConfusion hstep
          | proxy tgt ro sh c =>
            rw [hobj] at hfind
            have hr : r = .vobj tgt := by
              rw [toRawStep_proxy hfind] at hstep
              injection hstep with hr'
              exact hr'.symm
            have htgt : tgt < a := ((hW.2 _ (assocFind_mem hfind)).2 : proxyOk s a _).1
            apply ih
            intro b hb
            rw [hr] at hb
            injection hb with hb'
            omega
      | vnull => rw [@toRawStep_nonobj s .vnull rfl] at hstep; exact Option.noConfusion hstep
      | vundefined => rw [@toRawStep_nonobj s .vundefined rfl] at hstep; exact Option.noConfusion hstep
      | vnum m => rw [@toRawStep_nonobj s (.vnum m) rfl] at hstep; exact Option.noConfusion hstep
      | vstr t => rw [@toRawStep_nonobj s (.vstr t) rfl] at hstep; exact Option.noConfusion hstep
      | vbool b => rw [@toRawStep_nonobj s (.vbool b) rfl] at hstep; exact Option.noConfusion hstep
      | vfun => rw [@toRawStep_nonobj s .vfun rfl] at hstep; exact Option.noConfusion hstep

/-- C4: `toRaw` follows the raw-flag chain and terminates at the unwrapped
ancestor: `toRaw(x) = x` for a plain `x`, `toRaw(reactive(x)) = x`,
`toRaw(readonly(reactive(x))) = x` (through the two-step chain), and on a
raw-spoof-free heap the result of `toRaw` never carries a further raw step
(`toRaw` is idempotent). -/
theorem C4_toRaw_follows_chain {s : State} (hG : GoodState s) (hS : rawSpoofFree s)
    {a : Nat} {d : ObjData} (ha : assocFind a s.heap = some (.plain d)) (hc : cleanData d)
    (he : eligibleData d) :
    toRaw s (.vobj a) = .vobj a ∧
    (∀ w s₁, reactive s (.vobj a) = (w, s₁) → toRaw s₁ w = .vobj a) ∧
    (∀ w s₁ w₂ s₂, reactive s (.vobj a) = (w, s₁) → readonly s₁ w = (w₂, s₂) →
      toRaw s₂ w₂ = .vobj a) ∧
    (∀ v, toRaw s (toRaw s v) = toRaw s v) := by
  obtain ⟨p, c, s₁', hcall, hap, hpN, hsn, hpe, hae, hreg, hG₁, hpres⟩ :=
    construct_clean_spec hG ha hc he .mutableDeep
  have hcall' : reactive s (.vobj a) = (.vobj p, s₁') := hcall
  have hpe' : assocFind p s₁'.heap = some (.proxy a false false c) := hpe
  refine ⟨?_, ?_, ?_, ?_⟩
  · unfold toRaw
    exact toRawFuel_stops (toRawStep_plain_clean ha hc) _
  · intro w s₁ h
    rw [hcall'] at h
    injection h with hw hs1
    subst hw
    subst hs1
    obtain ⟨n, hn'⟩ : ∃ n, s₁'.nextAddr = n + 1 := ⟨s₁'.nextAddr - 1, by omega⟩
    unfold toRaw
    rw [hn', toRawFuel_step (toRawStep_proxy hpe'),
      toRawFuel_stops (toRawStep_plain_clean hae hc)]
  · intro w s₁ w₂ s₂ h h₂
    rw [hcall'] at h
    injection h with hw hs1
    subst hw
    subst hs1
    obtain ⟨q, c₂, s₂', hro, hpq, hqN, hqe, hreg₂, hpres₂, hsn₂⟩ :=
      cro_readonly_over_reactive hG₁ hpe' hae hc he
    rw [hro] at h₂
    injection h₂ with hw2 hs2
    subst hw2
    subst hs2
    have hpe₂ : assocFind p s₂'.heap = some (.proxy a false false c) := hpres₂ _ _ hpe'
    have hae₂ : assocFind a s₂'.heap = some (.plain d) := hpres₂ _ _ hae
    obtain ⟨n, hn'⟩ : ∃ n, s₂'.nextAddr = n + 2 := ⟨s₂'.nextAddr - 2, by omega⟩
    unfold toRaw
    rw [hn', toRawFuel_step (toRawStep_proxy hqe), toRawFuel_step (toRawStep_proxy hpe₂),
      toRawFuel_stops (toRawStep_plain_clean hae₂ hc)]
  · intro v
    cases v with
    | vobj b =>
      cases hfind : assocFind b s.heap with
      | none =>
        have h0 : toRawStep s (.vobj b) = none := toRawStep_nofind hfind
        unfold toRaw
        rw [toRawFuel_stops h0, toRawFuel_stops h0]
      | some ho =>
        have hb : b < s.nextAddr := (hG.1.2 _ (assocFind_mem hfind)).1
        have key := toRaw_fix_aux hG.1 hS s.nextAddr (.vobj b)
          (by intro a' ha'; injection ha' with hh; omega)
        unfold toRaw
        exact toRawFuel_stops key _
    | vnull =>
      unfold toRaw
      rw [toRawFuel_stops (@toRawStep_nonobj s .vnull rfl),
        toRawFuel_stops (@toRawStep_nonobj s .vnull rfl)]
    | vundefined =>
      unfold toRaw
      rw [toRawFuel_stops (@toRawStep_nonobj s .vundefined rfl),
        toRawFuel_stops (@toRawStep_nonobj s .vundefined rfl)]
    | vnum m =>
      unfold toRaw
      rw [toRawFuel_stops (@toRawStep_nonobj s (.vnum m) rfl),
        toRawFuel_stops (@toRawStep_nonobj s (.vnum m) rfl)]
    | vstr t =>
      unfold toRaw
      rw [toRawFuel_stops (@toRawStep_nonobj s (.vstr t) rfl),
        toRawFuel_stops (@toRawStep_nonobj s (.vstr t) rfl)]
    | vbool b =>
      unfold toRaw
      rw [toRawFuel_stops (@toRawStep_nonobj s (.vbool b) rfl),
        toRawFuel_stops (@toRawStep_nonobj s (.vbool b) rfl)]
    | vfun =>
      unfold toRaw
      rw [toRawFuel_stops (@toRawStep_nonobj s .vfun rfl),
        toRawFuel_stops (@toRawStep_nonobj s .vfun rfl)]

/-- Closed witness for C4 on the sample object. -/
theorem C4_witness :
    toRaw sampleState (.vobj 0) = .vobj 0 ∧
    toRaw (reactive sampleState (.vobj 0)).2 (reactive sampleState (.vobj 0)).1 =
      .vobj 0 ∧
    toRaw
        (readonly (reactive sampleState (.vobj 0)).2 (reactive sampleState (.vobj 0)).1).2
        (readonly (reactive sampleState (.vobj 0)).2
          (reactive sampleState (.vobj 0)).1).1 =
      .vobj 0 := by
  have h := @C4_toRaw_follows_chain sampleState (by decide) (by decide) 0 sampleObj
    (by decide) (by decide) (by decide)
  exact ⟨h.1, h.2.1 _ _ rfl, h.2.2.1 _ _ _ _ rfl rfl⟩

/-!
## The three possible outcomes of a factory call
-/

/-- Every `createReactiveObject` call takes exactly one of three paths:
passthrough (non-object, wrapper early-return, or INVALID classification),
registry hit, or fresh construction plus registration. -/
theorem cro_cases (s : State) (target : Value) (ro sh : Bool) (sel : MapSel) :
    createReactiveObject s target ro sh sel = (target, s) ∨
    (∃ a p, target = .vobj a ∧ assocFind a (getMap s sel) = some p ∧
        createReactiveObject s target ro sh sel = (.vobj p, s)) ∨
    (∃ a, target = .vobj a ∧ assocFind a (getMap s sel) = none ∧
        getTargetType s a ≠ TargetType.INVALID ∧
        createReactiveObject s target ro sh sel =
          (.vobj s.nextAddr,
            insertMap
              { s with
                heap := (s.nextAddr,
                  .proxy a ro sh (getTargetType s a = TargetType.COLLECTION : Bool)) ::
                  s.heap,
                nextAddr := s.nextAddr + 1 } sel a s.nextAddr)) := by
  cases target with
  | vobj a =>
    unfold createReactiveObject
    dsimp only
    by_cases hg : (truthy (getProp s (.vobj a) .raw) &&
        !(ro && truthy (getProp s (.vobj a) .isReactiveF))) = true
    · rw [if_pos hg]
      exact Or.inl rfl
    · rw [if_neg hg]
      cases hreg : assocFind a (getMap s sel) with
      | some p => exact Or.inr (Or.inl ⟨a, p, rfl, hreg, rfl⟩)
      | none =>
        by_cases hTT : getTargetType s a = TargetType.INVALID
        · rw [if_pos hTT]
          exact Or.inl rfl
        · rw [if_neg hTT]
          exact Or.inr (Or.inr ⟨a, rfl, hreg, hTT, rfl⟩)
  | vnull => exact Or.inl rfl
  | vundefined => exact Or.inl rfl
  | vnum n => exact Or.inl rfl
  | vstr t => exact Or.inl rfl
  | vbool b => exact Or.inl rfl
  | vfun => exact Or.inl rfl

/-!
## markRaw and updateHeap lemmas
-/

theorem assocFind_updateHeap {s : State} (b : Nat) (ho : HeapObj) (k : Nat) :
    assocFind k (updateHeap s b ho).heap =
      if k = b then (assocFind k s.heap).map (fun _ => ho) else assocFind k s.heap := by
  unfold updateHeap
  dsimp only
  induction s.heap with
  | nil => by_cases hk : k = b <;> simp [hk]
  | cons e t iht =>
    obtain ⟨ek, ev⟩ := e
    by_cases hek : ek = b
    · subst hek
      by_cases hk : k = ek <;> simp [hk, iht]
    · simp only [List.map_cons, if_neg hek]
      by_cases hk : k = ek
      · subst hk
        simp [if_neg hek]
      · simp [hk, iht]

@[simp]
theorem getMap_updateHeap (s : State) (b : Nat) (ho : HeapObj) (sel : MapSel) :
    getMap (updateHeap s b ho) sel = getMap s sel := by
  cases sel <;> rfl

@[simp]
theorem nextAddr_updateHeap (s : State) (b : Nat) (ho : HeapObj) :
    (updateHeap s b ho).nextAddr = s.nextAddr := rfl

/-- `markRaw`'s heap effect on a plain object. -/
theorem markRawAddr_plain {s : State} {b : Nat} {dd : ObjData}
    (hb : assocFind b s.heap = some (.plain dd)) (fuel : Nat) :
    markRawAddr s fuel b =
      if !dd.skip && dd.extensible then updateHeap s b (.plain { dd with skip := true })
      else s := by
  cases fuel <;> (rw [markRawAddr.eq_def]; simp [hb])

/-- Every `markRawAddr` call either leaves the state alone or sets the skip
flag on one plain object that did not have it. -/
theorem markRawAddr_cases (s : State) :
    ∀ (fuel b : Nat),
      markRawAddr s fuel b = s ∨
      ∃ b' dd, assocFind b' s.heap = some (.plain dd) ∧ dd.skip = false ∧
        markRawAddr s fuel b = updateHeap s b' (.plain { dd with skip := true }) := by
  intro fuel
  induction fuel with
  | zero =>
    intro b
    cases hb : assocFind b s.heap with
    | none => rw [markRawAddr.eq_def]; simp [hb]
    | some ho =>
      cases ho with
      | plain dd =>
        by_cases hskip : dd.skip
        · rw [markRawAddr_plain hb]
          simp [hskip]
        · by_cases hext : dd.extensible
          · refine Or.inr ⟨b, dd, hb, by simpa using hskip, ?_⟩
            rw [markRawAddr_plain hb]
            simp [hskip, hext]
          · rw [markRawAddr_plain hb]
            simp [hskip, hext]
      | proxy tgt ro sh c =>
        rw [markRawAddr.eq_def]
        simp [hb]
  | succ f ih =>
    intro b
    cases hb : assocFind b s.heap with
    | none => rw [markRawAddr.eq_def]; simp [hb]
    | some ho =>
      cases ho with
      | plain dd =>
        by_cases hskip : dd.skip
        · rw [markRawAddr_plain hb]
          simp [hskip]
        · by_cases hext : dd.extensible
          · refine Or.inr ⟨b, dd, hb, by simpa using hskip, ?_⟩
            rw [markRawAddr_plain hb]
            simp [hskip, hext]
          · rw [markRawAddr_plain hb]
            simp [hskip, hext]
      | proxy tgt ro sh c =>
        rw [markRawAddr.eq_def]
        simp only [hb]
        exact ih tgt

/-!
## C5 — markRaw permanence
-/

/-- One public API call (for the permanence claim: everything that can touch
the state). -/
inductive Op where
  | wrapOp (m : Mode) (v : Value)
  | markRawOp (v : Value)
  | toRawOp (v : Value)
  | toReactiveOp (v : Value)
  | toReadonlyOp (v : Value)

/-- The state after one API call (`toRaw` and the predicates never touch the
state). -/
def runOp (s : State) : Op → State
  | .wrapOp m v => (construct m s v).2
  | .markRawOp v => (markRaw s v).2
  | .toRawOp _ => s
  | .toReactiveOp v => (toReactive s v).2
  | .toReadonlyOp v => (toReadonly s v).2

def runOps (s : State) (ops : List Op) : State :=
  ops.foldl runOp s

/-- The permanence invariant for a marked object: its heap entry is the
marked (skip-flagged) version of its original data, its address stays below
the allocator, and no registry has an entry for it. -/
def skipLocked (s : State) (a : Nat) (d : ObjData) : Prop :=
  assocFind a s.heap = some (.plain { d with skip := true }) ∧
  a < s.nextAddr ∧
  (∀ sel : MapSel, assocFind a (getMap s sel) = none)

/-- A skip-flagged plain object classifies INVALID. -/
theorem getTargetType_skip {s : State} {a : Nat} {d : ObjData}
    (ha : assocFind a s.heap = some (.plain d)) (hskip : d.skip = true) :
    getTargetType s a = TargetType.INVALID := by
  rw [getTargetType_plain ha, hskip]
  rfl

/-- A factory call on a skip-flagged, unregistered plain object returns it
unchanged. -/
theorem cro_skipLocked {s : State} {a : Nat} {d : ObjData}
    (hL : skipLocked s a d) (ro sh : Bool) (sel : MapSel) :
    createReactiveObject s (.vobj a) ro sh sel = (.vobj a, s) := by
  rcases cro_cases s (.vobj a) ro sh sel with h | ⟨a', p, ha', hreg, h⟩ | ⟨a', ha', hreg, hTT, h⟩
  · exact h
  · injection ha' with haa
    subst haa
    rw [hL.2.2 sel] at hreg
    exact Option.noConfusion hreg
  · injection ha' with haa
    subst haa
    exact absurd (getTargetType_skip hL.1 rfl) hTT

/-- Every constructor mode returns a skip-locked object unchanged. -/
theorem construct_skipLocked {s : State} {a : Nat} {d : ObjData}
    (hL : skipLocked s a d) (hc : cleanData d) (m : Mode) :
    construct m s (.vobj a) = (.vobj a, s) := by
  cases m with
  | mutableDeep =>
    show reactive s (.vobj a) = _
    unfold reactive
    rw [isReadonly_plain hL.1]
    simp only [hc.2.2.1, Bool.false_eq_true, if_false]
    exact cro_skipLocked hL false false .reactiveM
  | mutableShallow => exact cro_skipLocked hL false true .shallowReactiveM
  | readonlyDeep => exact cro_skipLocked hL true false .readonlyM
  | readonlyShallow => exact cro_skipLocked hL true true .shallowReadonlyM

/-- One API call preserves the permanence invariant. -/
theorem runOp_skipLocked {s : State} {a : Nat} {d : ObjData}
    (hL : skipLocked s a d) (op : Op) : skipLocked (runOp s op) a d := by
  have hwrap : ∀ (v : Value) (ro sh : Bool) (sel : MapSel),
      skipLocked (createReactiveObject s v ro sh sel).2 a d := by
    intro v ro sh sel
    rcases cro_cases s v ro sh sel with h | ⟨a', p, ha', hreg, h⟩ | ⟨a', ha', hreg, hTT, h⟩
    · rw [h]
      exact hL
    · rw [h]
      exact hL
    · rw [h]
      have hne : a ≠ a' := by
        intro haa
        subst haa
        exact hTT (getTargetType_skip hL.1 rfl)
      have hne2 : a ≠ s.nextAddr := by
        have := hL.2.1
        omega
      refine ⟨?_, ?_, ?_⟩
      · rw [heap_insertMap]
        dsimp only
        rw [assocFind_cons, if_neg hne2]
        exact hL.1
      · rw [nextAddr_insertMap]
        dsimp only
        have := hL.2.1
        omega
      · intro sel2
        by_cases hss : sel2 = sel
        · subst hss
          rw [getMap_insertMap_same]
          rw [assocFind_cons, if_neg hne, getMap_set_heap]
          exact hL.2.2 sel2
        · rw [getMap_insertMap_other hss, getMap_set_heap]
          exact hL.2.2 sel2
  have hcon : ∀ (m : Mode) (v : Value), skipLocked (construct m s v).2 a d := by
    intro m v
    cases m with
    | mutableDeep =>
      show skipLocked (reactive s v).2 a d
      unfold reactive
      by_cases hro : isReadonly s v
      · rw [if_pos hro]
        exact hL
      · rw [if_neg hro]
        exact hwrap v false false .reactiveM
    | mutableShallow => exact hwrap v false true .shallowReactiveM
    | readonlyDeep => exact hwrap v true false .readonlyM
    | readonlyShallow => exact hwrap v true true .shallowReadonlyM
  have hmark : ∀ v : Value, skipLocked (markRaw s v).2 a d := by
    intro v
    cases v with
    | vobj b =>
      show skipLocked (markRawAddr s s.nextAddr b) a d
      rcases markRawAddr_cases s s.nextAddr b with h | ⟨b', dd, hb', hsk, h⟩
      · rw [h]
        exact hL
      · rw [h]
        have hne : a ≠ b' := by
          intro haa
          subst haa
          rw [hL.1] at hb'
          injection hb' with hdd
          injection hdd with hdd'
          have : dd.skip = true := by rw [← hdd']
          rw [this] at hsk
          exact Bool.noConfusion hsk
        refine ⟨?_, ?_, ?_⟩
        · rw [assocFind_updateHeap, if_neg hne]
          exact hL.1
        · rw [nextAddr_updateHeap]
          exact hL.2.1
        · intro sel2
          rw [getMap_updateHeap]
          exact hL.2.2 sel2
    | vnull => exact hL
    | vundefined => exact hL
    | vnum n => exact hL
    | vstr t => exact hL
    | vbool b => exact hL
    | vfun => exact hL
  cases op with
  | wrapOp m v => exact hcon m v
  | markRawOp v => exact hmark v
  | toRawOp v => exact hL
  | toReactiveOp v =>
    show skipLocked (toReactive s v).2 a d
    unfold toReactive
    by_cases hv : isObject v = true
    · rw [if_pos hv]
      exact hcon .mutableDeep v
    · rw [if_neg hv]
      exact hL
  | toReadonlyOp v =>
    show skipLocked (toReadonly s v).2 a d
    unfold toReadonly
    by_cases hv : isObject v = true
    · rw [if_pos hv]
      exact hcon .readonlyDeep v
    · rw [if_neg hv]
      exact hL

theorem runOps_skipLocked {s : State} {a : Nat} {d : ObjData}
    (hL : skipLocked s a d) (ops : List Op) : skipLocked (runOps s ops) a d := by
  induction ops generalizing s with
  | nil => exact hL
  | cons op t ih => exact ih (runOp_skipLocked hL op)

/-- `isReactive` on a plain object with no own readonly flag reads the own
is-reactive flag. -/
theorem isReactive_plain {s : State} {a : Nat} {d : ObjData}
    (ha : assocFind a s.heap = some (.plain d)) (hro : d.ownIsReadonly = false)
    (hn : 0 < s.nextAddr) :
    isReactive s (.vobj a) = d.ownIsReactive := by
  obtain ⟨n, hn'⟩ : ∃ n, s.nextAddr = n + 1 := ⟨s.nextAddr - 1, by omega⟩
  unfold isReactive
  rw [hn']
  show isReactiveFuel s (n + 1) (.vobj a) = d.ownIsReactive
  unfold isReactiveFuel
  rw [isReadonly_plain ha, hro]
  have : getProp s (.vobj a) .isReactiveF = plainProp d .isReactiveF := by
    unfold getProp
    exact getPropFuel_plain ha _ _
  simp only [Bool.false_eq_true, if_false, this]
  cases hdr : d.ownIsReactive <;> simp [plainProp, hdr, truthy]

/-- C5 counterexample: if `x` is wrapped *before* `markRaw(x)`, the cached
wrapper survives: the later constructor call returns the wrapper, not `x`,
because the registry lookup precedes classification. -/
theorem C5_counterexample :
    truthy (getProp (markRaw (reactive sampleState (.vobj 0)).2 (.vobj 0)).2
        (.vobj 0) .skip) = true ∧
    (reactive (markRaw (reactive sampleState (.vobj 0)).2 (.vobj 0)).2 (.vobj 0)).1 =
      .vobj 1 ∧
    Value.vobj 1 ≠ Value.vobj 0 := by
  decide

/-- C5 (amended): for a clean, extensible object `x` that is not yet cached
in any registry, after `markRaw(x)` every subsequent constructor call on `x`,
in every mode, returns `x` itself with no state change, and `isReactive(x)`
is false — permanently, across any further sequence of API calls. -/
theorem C5_markRaw_permanent {s : State} (hG : GoodState s) {a : Nat} {d : ObjData}
    (ha : assocFind a s.heap = some (.plain d)) (hc : cleanData d)
    (hx : d.extensible = true) (hreg : ∀ sel : MapSel, assocFind a (getMap s sel) = none) :
    markRaw s (.vobj a) = (.vobj a, updateHeap s a (.plain { d with skip := true })) ∧
    ∀ (ops : List Op) (m : Mode),
      construct m (runOps (updateHeap s a (.plain { d with skip := true })) ops)
          (.vobj a) =
        (.vobj a, runOps (updateHeap s a (.plain { d with skip := true })) ops) ∧
      isReactive (runOps (updateHeap s a (.plain { d with skip := true })) ops)
          (.vobj a) =
        false := by
  have haN : a < s.nextAddr := (hG.1.2 _ (assocFind_mem ha)).1
  have hmark : markRaw s (.vobj a) =
      (.vobj a, updateHeap s a (.plain { d with skip := true })) := by
    show ((Value.vobj a, markRawAddr s s.nextAddr a) : Value × State) =
      (.vobj a, updateHeap s a (.plain { d with skip := true }))
    rw [markRawAddr_plain ha, hc.1, hx]
    rfl
  have hL₁ : skipLocked (updateHeap s a (.plain { d with skip := true })) a d := by
    refine ⟨?_, ?_, ?_⟩
    · rw [assocFind_updateHeap, if_pos rfl, ha]
      rfl
    · rw [nextAddr_updateHeap]
      exact haN
    · intro sel
      rw [getMap_updateHeap]
      exact hreg sel
  refine ⟨hmark, ?_⟩
  intro ops m
  have hL := runOps_skipLocked hL₁ ops
  refine ⟨construct_skipLocked hL hc m, ?_⟩
  rw [isReactive_plain hL.1 hc.2.2.1 (by have := hL.2.1; omega)]
  exact hc.2.1

/-- Closed witness for C5: markRaw on a fresh object, then a wrap attempt
after an interleaved API call. -/
theorem C5_witness :
    markRaw sampleState (.vobj 0) =
      (.vobj 0, updateHeap sampleState 0 (.plain { sampleObj with skip := true })) ∧
    (construct .mutableDeep
          (runOps (updateHeap sampleState 0 (.plain { sampleObj with skip := true }))
            [.wrapOp .readonlyDeep (.vobj 0), .toRawOp (.vobj 0)])
          (.vobj 0) =
        (.vobj 0,
          runOps (updateHeap sampleState 0 (.plain { sampleObj with skip := true }))
            [.wrapOp .readonlyDeep (.vobj 0), .toRawOp (.vobj 0)]) ∧
      isReactive
          (runOps (updateHeap sampleState 0 (.plain { sampleObj with skip := true }))
            [.wrapOp .readonlyDeep (.vobj 0), .toRawOp (.vobj 0)])
          (.vobj 0) =
        false) := by
  have h := @C5_markRaw_permanent sampleState (by decide) 0 sampleObj (by decide)
    (by decide) (by decide) (by intro sel; cases sel <;> rfl)
  exact ⟨h.1, h.2 [.wrapOp .readonlyDeep (.vobj 0), .toRawOp (.vobj 0)] .mutableDeep⟩

/-!
## C6 — the target classifier
-/

/-- C6 counterexample: after wrap-then-markRaw, the original classifies
INVALID, yet the factory returns the cached wrapper rather than passing the
value through unchanged (the registry lookup precedes classification). -/
theorem C6_counterexample :
    getTargetType (markRaw (reactive sampleState (.vobj 0)).2 (.vobj 0)).2 0 =
      TargetType.INVALID ∧
    createReactiveObject (markRaw (reactive sampleState (.vobj 0)).2 (.vobj 0)).2
        (.vobj 0) false false .reactiveM =
      (.vobj 1, (markRaw (reactive sampleState (.vobj 0)).2 (.vobj 0)).2) ∧
    Value.vobj 1 ≠ Value.vobj 0 := by
  decide

/-- C6 (amended): the classifier returns INVALID for every skip-flagged or
non-extensible object; otherwise COMMON exactly for Object/Array, COLLECTION
exactly for Map/Set/WeakMap/WeakSet, INVALID for every other kind; and a
value classified INVALID passes through the factory unchanged provided it is
not already cached in the requested registry. -/
theorem C6_classifier {s : State} {a : Nat} {d : ObjData}
    (ha : assocFind a s.heap = some (.plain d)) :
    (d.skip = true ∨ d.extensible = false → getTargetType s a = TargetType.INVALID) ∧
    (d.skip = false → d.extensible = true →
      getTargetType s a = targetTypeMap d.className) ∧
    targetTypeMap "Object" = .COMMON ∧
    targetTypeMap "Array" = .COMMON ∧
    targetTypeMap "Map" = .COLLECTION ∧
    targetTypeMap "Set" = .COLLECTION ∧
    targetTypeMap "WeakMap" = .COLLECTION ∧
    targetTypeMap "WeakSet" = .COLLECTION ∧
    (∀ t : String,
      t ≠ "Object" → t ≠ "Array" → t ≠ "Map" → t ≠ "Set" → t ≠ "WeakMap" →
        t ≠ "WeakSet" → targetTypeMap t = .INVALID) ∧
    (∀ (ro sh : Bool) (sel : MapSel), getTargetType s a = TargetType.INVALID →
      assocFind a (getMap s sel) = none →
      createReactiveObject s (.vobj a) ro sh sel = (.vobj a, s)) := by
  refine ⟨?_, ?_, rfl, rfl, rfl, rfl, rfl, rfl, ?_, ?_⟩
  · intro h
    rw [getTargetType_plain ha]
    rcases h with h | h <;> simp [h]
  · intro h1 h2
    rw [getTargetType_plain ha]
    simp [h1, h2]
  · intro t h1 h2 h3 h4 h5 h6
    unfold targetTypeMap
    simp [h1, h2, h3, h4, h5, h6]
  · intro ro sh sel hTT hreg
    rcases cro_cases s (.vobj a) ro sh sel with h | ⟨a', p, ha', hreg', h⟩ |
      ⟨a', ha', hreg', hTT', h⟩
    · exact h
    · injection ha' with haa
      subst haa
      rw [hreg] at hreg'
      exact Option.noConfusion hreg'
    · injection ha' with haa
      subst haa
      exact absurd hTT hTT'

/-- Closed witness for C6 on the sample heap (a frozen variant of the sample
object at address 0: here we use the marked state where address 0 is
skip-flagged and uncached in the shallow-reactive registry). -/
theorem C6_witness :
    (sampleObj.skip = true ∨ sampleObj.extensible = false →
      getTargetType sampleState 0 = TargetType.INVALID) ∧
    (sampleObj.skip = false → sampleObj.extensible = true →
      getTargetType sampleState 0 = targetTypeMap sampleObj.className) ∧
    targetTypeMap "Object" = .COMMON ∧
    targetTypeMap "Array" = .COMMON ∧
    targetTypeMap "Map" = .COLLECTION ∧
    targetTypeMap "Set" = .COLLECTION ∧
    targetTypeMap "WeakMap" = .COLLECTION ∧
    targetTypeMap "WeakSet" = .COLLECTION ∧
    (∀ t : String,
      t ≠ "Object" → t ≠ "Array" → t ≠ "Map" → t ≠ "Set" → t ≠ "WeakMap" →
        t ≠ "WeakSet" → targetTypeMap t = .INVALID) ∧
    (∀ (ro sh : Bool) (sel : MapSel), getTargetType sampleState 0 = TargetType.INVALID →
      assocFind 0 (getMap sampleState sel) = none →
      createReactiveObject sampleState (.vobj 0) ro sh sel = (.vobj 0, sampleState)) :=
  @C6_classifier sampleState 0 sampleObj (by decide)

/-!
## C8 — no exceptions on any path

The pure definitions above return `undefined` for a property read off
`null`/`undefined`, which in JS would throw a `TypeError`.  To prove the
no-exception claim honestly, the functions below repeat the source code with
the property read made fallible (`Except Unit`), erroring exactly where JS
would throw; the theorem shows each public operation agrees with its total
counterpart on every input — i.e. the guards in the source make the throwing
reads unreachable.  (The reads inside `getTargetType` happen only on values
already known to be objects, where JS property access cannot throw.)
-/

/-- Fallible property read: `TypeError` on `null`/`undefined`, otherwise as
`getPropFuel`. -/
def getPropExcFuel (s : State) : Nat → Value → Flag → Except Unit Value
  | _, .vnull, _ => .error ()
  | _, .vundefined, _ => .error ()
  | _, .vnum _, _ => .ok .vundefined
  | _, .vstr _, _ => .ok .vundefined
  | _, .vbool _, _ => .ok .vundefined
  | _, .vfun, _ => .ok .vundefined
  | fuel, .vobj a, k =>
    match assocFind a s.heap with
    | none => .ok .vundefined
    | some (.plain d) => .ok (plainProp d k)
    | some (.proxy tgt ro sh _) =>
      match k with
      | .skip =>
        match fuel with
        | 0 => .ok .vundefined
        | f + 1 => getPropExcFuel s f (.vobj tgt) .skip
      | .isReactiveF => .ok (.vbool (!ro))
      | .isReadonlyF => .ok (.vbool ro)
      | .isShallowF => .ok (.vbool sh)
      | .raw => .ok (.vobj tgt)

def getPropExc (s : State) (v : Value) (k : Flag) : Except Unit Value :=
  getPropExcFuel s s.nextAddr v k

/-- `isReadonly` with fallible reads, exactly as the source evaluates:
`!!(value && value[IS_READONLY])`. -/
def isReadonlyExc (s : State) (v : Value) : Except Unit Bool :=
  if truthy v then
    match getPropExc s v .isReadonlyF with
    | .error e => .error e
    | .ok p => .ok (truthy p)
  else .ok false

def isShallowExc (s : State) (v : Value) : Except Unit Bool :=
  if truthy v then
    match getPropExc s v .isShallowF with
    | .error e => .error e
    | .ok p => .ok (truthy p)
  else .ok false

/-- `isProxy` with fallible reads: `value ? !!value[RAW] : false`. -/
def isProxyExc (s : State) (v : Value) : Except Unit Bool :=
  if truthy v then
    match getPropExc s v .raw with
    | .error e => .error e
    | .ok p => .ok (truthy p)
  else .ok false

/-- `isReactive` with fallible reads and fuel for the raw delegation. -/
def isReactiveExcFuel (s : State) : Nat → Value → Except Unit Bool
  | 0, _ => .ok false
  | f + 1, v =>
    match isReadonlyExc s v with
    | .error e => .error e
    | .ok true =>
      match getPropExc s v .raw with
      | .error e => .error e
      | .ok r => isReactiveExcFuel s f r
    | .ok false =>
      if truthy v then
        match getPropExc s v .isReactiveF with
        | .error e => .error e
        | .ok p => .ok (truthy p)
      else .ok false

def isReactiveExc (s : State) (v : Value) : Except Unit Bool :=
  isReactiveExcFuel s s.nextAddr v

/-- `createReactiveObject` with fallible flag reads. -/
def createReactiveObjectExc (s : State) (target : Value) (isReadonly2 : Bool) (sh : Bool)
    (sel : MapSel) : Except Unit (Value × State) :=
  match target with
  | .vobj a =>
    match getPropExc s target .raw, getPropExc s target .isReactiveF with
    | .error e, _ => .error e
    | .ok _, .error e => .error e
    | .ok rawv, .ok reav =>
      if truthy rawv && !(isReadonly2 && truthy reav) then .ok (target, s)
      else
        match assocFind a (getMap s sel) with
        | some p => .ok (.vobj p, s)
        | none =>
          let targetType := getTargetType s a
          if targetType = .INVALID then .ok (target, s)
          else
            let p := s.nextAddr
            let s' := { s with
              heap := (p, .proxy a isReadonly2 sh (targetType = .COLLECTION)) :: s.heap,
              nextAddr := p + 1 }
            .ok (.vobj p, insertMap s' sel a p)
  | _ => .ok (target, s)

def reactiveExc (s : State) (target : Value) : Except Unit (Value × State) :=
  match isReadonlyExc s target with
  | .error e => .error e
  | .ok true => .ok (target, s)
  | .ok false => createReactiveObjectExc s target false false .reactiveM

def shallowReactiveExc (s : State) (target : Value) : Except Unit (Value × State) :=
  createReactiveObjectExc s target false true .shallowReactiveM

def readonlyExc (s : State) (target : Value) : Except Unit (Value × State) :=
  createReactiveObjectExc s target true false .readonlyM

def shallowReadonlyExc (s : State) (target : Value) : Except Unit (Value × State) :=
  createReactiveObjectExc s target true true .shallowReadonlyM

theorem getPropExcFuel_ok (s : State) :
    ∀ (fuel : Nat) (v : Value), v ≠ .vnull → v ≠ .vundefined →
      ∀ k, getPropExcFuel s fuel v k = .ok (getPropFuel s fuel v k) := by
  intro fuel
  induction fuel with
  | zero =>
    intro v h1 h2 k
    cases v with
    | vnull => exact absurd rfl h1
    | vundefined => exact absurd rfl h2
    | vnum n => rfl
    | vstr t => rfl
    | vbool b => rfl
    | vfun => rfl
    | vobj a =>
      rw [getPropExcFuel.eq_def, getPropFuel.eq_def]
      dsimp only
      cases hfind : assocFind a s.heap with
      | none => rfl
      | some ho =>
        cases ho with
        | plain d => rfl
        | proxy tgt ro sh c => cases k <;> rfl
  | succ f ih =>
    intro v h1 h2 k
    cases v with
    | vnull => exact absurd rfl h1
    | vundefined => exact absurd rfl h2
    | vnum n => rfl
    | vstr t => rfl
    | vbool b => rfl
    | vfun => rfl
    | vobj a =>
      rw [getPropExcFuel.eq_def, getPropFuel.eq_def]
      dsimp only
      cases hfind : assocFind a s.heap with
      | none => rfl
      | some ho =>
        cases ho with
        | plain d => rfl
        | proxy tgt ro sh c =>
          cases k with
          | skip =>
            exact ih (.vobj tgt) (fun h => Value.noConfusion h) (fun h => Value.noConfusion h) .skip
          | isReactiveF => rfl
          | isReadonlyF => rfl
          | isShallowF => rfl
          | raw => rfl

theorem getPropExc_ok {s : State} {v : Value} (h1 : v ≠ .vnull) (h2 : v ≠ .vundefined)
    (k : Flag) : getPropExc s v k = .ok (getProp s v k) :=
  getPropExcFuel_ok s s.nextAddr v h1 h2 k

theorem truthy_ne_null {v : Value} (h : truthy v = true) : v ≠ .vnull := by
  intro hv
  subst hv
  exact Bool.noConfusion h

theorem truthy_ne_undef {v : Value} (h : truthy v = true) : v ≠ .vundefined := by
  intro hv
  subst hv
  exact Bool.noConfusion h

theorem truthy_false_eq {v : Value} (h : ¬ truthy v = true) : truthy v = false := by
  revert h
  cases truthy v <;> simp

theorem isReadonlyExc_ok (s : State) (v : Value) :
    isReadonlyExc s v = .ok (isReadonly s v) := by
  unfold isReadonlyExc isReadonly
  by_cases ht : truthy v = true
  · rw [if_pos ht, getPropExc_ok (truthy_ne_null ht) (truthy_ne_undef ht), ht]
    rfl
  · rw [if_neg ht, truthy_false_eq ht]
    rfl

theorem isShallowExc_ok (s : State) (v : Value) :
    isShallowExc s v = .ok (isShallow s v) := by
  unfold isShallowExc isShallow
  by_cases ht : truthy v = true
  · rw [if_pos ht, getPropExc_ok (truthy_ne_null ht) (truthy_ne_undef ht), ht]
    rfl
  · rw [if_neg ht, truthy_false_eq ht]
    rfl

theorem isProxyExc_ok (s : State) (v : Value) :
    isProxyExc s v = .ok (isProxy s v) := by
  unfold isProxyExc isProxy
  by_cases ht : truthy v = true
  · rw [if_pos ht, getPropExc_ok (truthy_ne_null ht) (truthy_ne_undef ht), ht]
    rfl
  · rw [if_neg ht, truthy_false_eq ht]
    rfl

theorem isReactiveExcFuel_ok (s : State) :
    ∀ (fuel : Nat) (v : Value),
      isReactiveExcFuel s fuel v = .ok (isReactiveFuel s fuel v) := by
  intro fuel
  induction fuel with
  | zero => intro v; rfl
  | succ f ih =>
    intro v
    rw [isReactiveExcFuel.eq_def]
    conv_rhs => rw [isReactiveFuel.eq_def]
    dsimp only
    rw [isReadonlyExc_ok]
    by_cases hro : isReadonly s v = true
    · have ht : truthy v = true := by
        have h2 := hro
        unfold isReadonly at h2
        exact (Bool.and_eq_true _ _ ▸ h2).1
      rw [hro, getPropExc_ok (truthy_ne_null ht) (truthy_ne_undef ht)]
      dsimp only
      rw [if_pos rfl]
      exact ih (getProp s v .raw)
    · have hro' : isReadonly s v = false := by revert hro; cases isReadonly s v <;> simp
      rw [hro']
      dsimp only
      by_cases ht : truthy v = true
      · rw [if_pos ht, getPropExc_ok (truthy_ne_null ht) (truthy_ne_undef ht)]
        dsimp only
        rw [if_neg (by exact Bool.false_ne_true), ht]
        simp
      · rw [if_neg ht, truthy_false_eq ht]
        rw [if_neg (by exact Bool.false_ne_true)]
        simp

theorem isReactiveExc_ok (s : State) (v : Value) :
    isReactiveExc s v = .ok (isReactive s v) :=
  isReactiveExcFuel_ok s s.nextAddr v

theorem createReactiveObjectExc_ok (s : State) (v : Value) (ro sh : Bool) (sel : MapSel) :
    createReactiveObjectExc s v ro sh sel = .ok (createReactiveObject s v ro sh sel) := by
  cases v with
  | vobj a =>
    unfold createReactiveObjectExc createReactiveObject
    dsimp only
    rw [getPropExc_ok (fun h => Value.noConfusion h) (fun h => Value.noConfusion h),
      getPropExc_ok (fun h => Value.noConfusion h) (fun h => Value.noConfusion h)]
    dsimp only
    by_cases hg : (truthy (getProp s (.vobj a) .raw) &&
        !(ro && truthy (getProp s (.vobj a) .isReactiveF))) = true
    · rw [if_pos hg, if_pos hg]
    · rw [if_neg hg, if_neg hg]
      cases hreg : assocFind a (getMap s sel) with
      | some p => rfl
      | none =>
        by_cases hTT : getTargetType s a = TargetType.INVALID
        · rw [if_pos hTT, if_pos hTT]
        · rw [if_neg hTT, if_neg hTT]
  | vnull => rfl
  | vundefined => rfl
  | vnum n => rfl
  | vstr t => rfl
  | vbool b => rfl
  | vfun => rfl

theorem reactiveExc_ok (s : State) (v : Value) :
    reactiveExc s v = .ok (reactive s v) := by
  unfold reactiveExc reactive
  rw [isReadonlyExc_ok]
  by_cases hro : isReadonly s v = true
  · rw [hro]
    rfl
  · have hro' : isReadonly s v = false := by revert hro; cases isReadonly s v <;> simp
    rw [hro', if_neg (by exact Bool.false_ne_true)]
    exact createReactiveObjectExc_ok s v false false .reactiveM

theorem isReadonly_nonobj {s : State} {v : Value} (h : isObject v = false) :
    isReadonly s v = false := by
  unfold isReadonly getProp
  rw [getPropFuel_nonobj s _ _ h]
  cases truthy v <;> rfl

theorem isShallow_nonobj {s : State} {v : Value} (h : isObject v = false) :
    isShallow s v = false := by
  unfold isShallow getProp
  rw [getPropFuel_nonobj s _ _ h]
  cases truthy v <;> rfl

theorem isProxy_nonobj {s : State} {v : Value} (h : isObject v = false) :
    isProxy s v = false := by
  unfold isProxy getProp
  rw [getPropFuel_nonobj s _ _ h]
  cases truthy v <;> rfl

theorem isReactive_nonobj {s : State} {v : Value} (h : isObject v = false) :
    isReactive s v = false := by
  unfold isReactive
  cases hn : s.nextAddr with
  | zero => rfl
  | succ n =>
    show isReactiveFuel s (n + 1) v = false
    unfold isReactiveFuel
    rw [isReadonly_nonobj h]
    have : getProp s v .isReactiveF = .vundefined := by
      unfold getProp
      exact getPropFuel_nonobj s _ _ h
    simp only [Bool.false_eq_true, if_false, this]
    cases truthy v <;> rfl

theorem cro_nonobj {s : State} {v : Value} (h : isObject v = false) (ro sh : Bool)
    (sel : MapSel) : createReactiveObject s v ro sh sel = (v, s) := by
  cases v with
  | vobj a => exact absurd h (by simp [isObject])
  | vnull => rfl
  | vundefined => rfl
  | vnum n => rfl
  | vstr t => rfl
  | vbool b => rfl
  | vfun => rfl

/-- C8 counterexample: "wrapping an ineligible object returns the input
unchanged" fails for a cached target.  Wrap `x`, `markRaw(x)` — now `x` is
ineligible (classifies INVALID) — yet `reactive(x)` returns the cached
wrapper, not `x`: the registry lookup precedes classification. -/
theorem C8_counterexample :
    getTargetType (markRaw (reactive sampleState (.vobj 0)).2 (.vobj 0)).2 0 =
      TargetType.INVALID ∧
    reactive (markRaw (reactive sampleState (.vobj 0)).2 (.vobj 0)).2 (.vobj 0) =
      (.vobj 1, (markRaw (reactive sampleState (.vobj 0)).2 (.vobj 0)).2) ∧
    Value.vobj 1 ≠ Value.vobj 0 := by
  decide

/-- A factory call on an INVALID-classified plain object with no cached
wrapper in the requested registry returns the input unchanged. -/
theorem cro_invalid_uncached {s : State} {a : Nat} {d : ObjData}
    (ha : assocFind a s.heap = some (.plain d))
    (hTT : getTargetType s a = TargetType.INVALID) (ro sh : Bool) (sel : MapSel)
    (hreg : assocFind a (getMap s sel) = none) :
    createReactiveObject s (.vobj a) ro sh sel = (.vobj a, s) := by
  rcases cro_cases s (.vobj a) ro sh sel with h | ⟨a2, p, ha2, hreg2, h⟩ |
    ⟨a2, ha2, hreg2, hTT2, h⟩
  · exact h
  · injection ha2 with haa
    subst haa
    rw [hreg] at hreg2
    exact Option.noConfusion hreg2
  · injection ha2 with haa
    subst haa
    exact absurd hTT hTT2

/-- Every public constructor returns an INVALID-classified, uncached plain
object unchanged. -/
theorem construct_invalid_uncached {s : State} {a : Nat} {d : ObjData}
    (ha : assocFind a s.heap = some (.plain d))
    (hTT : getTargetType s a = TargetType.INVALID) (m : Mode)
    (hreg : assocFind a (getMap s m.sel) = none) :
    construct m s (.vobj a) = (.vobj a, s) := by
  cases m with
  | mutableDeep =>
    show reactive s (.vobj a) = _
    unfold reactive
    by_cases hro : isReadonly s (.vobj a) = true
    · rw [if_pos hro]
    · rw [if_neg hro]
      exact cro_invalid_uncached ha hTT false false .reactiveM hreg
  | mutableShallow => exact cro_invalid_uncached ha hTT false true .shallowReactiveM hreg
  | readonlyDeep => exact cro_invalid_uncached ha hTT true false .readonlyM hreg
  | readonlyShallow => exact cro_invalid_uncached ha hTT true true .shallowReadonlyM hreg

/-- C8 (amended): no operation raises an exception on any input.  Each public
operation, re-run with property reads that fail exactly where JS would throw
a `TypeError`, returns `ok` of its total counterpart on every input; wrapping
a non-object returns the input unchanged; wrapping an ineligible
(INVALID-classified) object that has no cached wrapper in the requested
registry returns the input unchanged; and every introspection predicate is
total, yielding `false` on null/undefined/primitive/function input. -/
theorem C8_no_exceptions (s : State) (v : Value) :
    reactiveExc s v = .ok (reactive s v) ∧
    shallowReactiveExc s v = .ok (shallowReactive s v) ∧
    readonlyExc s v = .ok (readonly s v) ∧
    shallowReadonlyExc s v = .ok (shallowReadonly s v) ∧
    isReactiveExc s v = .ok (isReactive s v) ∧
    isReadonlyExc s v = .ok (isReadonly s v) ∧
    isShallowExc s v = .ok (isShallow s v) ∧
    isProxyExc s v = .ok (isProxy s v) ∧
    (isObject v = false →
      reactive s v = (v, s) ∧ shallowReactive s v = (v, s) ∧ readonly s v = (v, s) ∧
      shallowReadonly s v = (v, s) ∧ isReactive s v = false ∧ isReadonly s v = false ∧
      isShallow s v = false ∧ isProxy s v = false) ∧
    (∀ (a : Nat) (d : ObjData) (m : Mode), v = .vobj a →
      assocFind a s.heap = some (.plain d) →
      getTargetType s a = TargetType.INVALID →
      assocFind a (getMap s m.sel) = none →
      construct m s v = (v, s)) := by
  refine ⟨reactiveExc_ok s v, createReactiveObjectExc_ok s v false true .shallowReactiveM,
    createReactiveObjectExc_ok s v true false .readonlyM,
    createReactiveObjectExc_ok s v true true .shallowReadonlyM,
    isReactiveExc_ok s v, isReadonlyExc_ok s v, isShallowExc_ok s v, isProxyExc_ok s v,
    ?_, ?_⟩
  · intro h
    refine ⟨?_, cro_nonobj h false true _, cro_nonobj h true false _, cro_nonobj h true true _,
      isReactive_nonobj h, isReadonly_nonobj h, isShallow_nonobj h, isProxy_nonobj h⟩
    unfold reactive
    rw [isReadonly_nonobj h]
    simp only [Bool.false_eq_true, if_false]
    exact cro_nonobj h false false _
  · intro a d m hv ha hTT hreg
    subst hv
    exact construct_invalid_uncached ha hTT m hreg

/-- A frozen (non-extensible) plain object — ineligible from the start. -/
def frozenObj : ObjData :=
  ⟨"Object", false, false, false, false, false, none⟩

def frozenState : State :=
  ⟨[(0, .plain frozenObj)], [], [], [], [], 1⟩

/-- Closed witness for C8: a `null` input for the non-object and totality
conjuncts, and a frozen, uncached object for the ineligible-passthrough
conjunct. -/
theorem C8_witness :
    (reactive sampleState .vnull = (.vnull, sampleState) ∧
      shallowReactive sampleState .vnull = (.vnull, sampleState) ∧
      readonly sampleState .vnull = (.vnull, sampleState) ∧
      shallowReadonly sampleState .vnull = (.vnull, sampleState) ∧
      isReactive sampleState .vnull = false ∧
      isReadonly sampleState .vnull = false ∧
      isShallow sampleState .vnull = false ∧
      isProxy sampleState .vnull = false) ∧
    construct .mutableDeep frozenState (.vobj 0) = (.vobj 0, frozenState) := by
  have h1 := C8_no_exceptions sampleState .vnull
  have h2 := C8_no_exceptions frozenState (.vobj 0)
  exact ⟨h1.2.2.2.2.2.2.2.2.1 rfl,
    h2.2.2.2.2.2.2.2.2.2 0 frozenObj .mutableDeep rfl (by decide) (by decide) (by decide)⟩

/-!
## C9 — wrapping never mutates existing objects
-/

/-- Frame property of one factory call: every pre-existing heap entry is
unchanged (in particular the target keeps all its own properties — no fields
are injected), the heap grows by at most one fresh wrapper, and each registry
is unchanged or gains exactly one entry. -/
theorem cro_frame {s : State} (hW : WF s) (t : Value) (ro sh : Bool) (sel : MapSel)
    {w : Value} {s' : State} (heq : createReactiveObject s t ro sh sel = (w, s')) :
    (∀ b ho, assocFind b s.heap = some ho → assocFind b s'.heap = some ho) ∧
    (s'.heap = s.heap ∨ ∃ q ho, s'.heap = (q, ho) :: s.heap ∧ assocFind q s.heap = none) ∧
    (∀ sel2 : MapSel, getMap s' sel2 = getMap s sel2 ∨
      ∃ k p, getMap s' sel2 = (k, p) :: getMap s sel2) := by
  rcases cro_cases s t ro sh sel with h | ⟨a, p, ht, hreg, h⟩ | ⟨a, ht, hreg, hTT, h⟩
  · rw [heq] at h
    injection h with h1 h2
    subst h2
    exact ⟨fun b ho hh => hh, Or.inl rfl, fun sel2 => Or.inl rfl⟩
  · rw [heq] at h
    injection h with h1 h2
    subst h2
    exact ⟨fun b ho hh => hh, Or.inl rfl, fun sel2 => Or.inl rfl⟩
  · rw [heq] at h
    injection h with h1 h2
    subst h2
    refine ⟨?_, ?_, ?_⟩
    · intro b ho hh
      have hb : b < s.nextAddr := (hW.2 _ (assocFind_mem hh)).1
      rw [heap_insertMap]
      dsimp only
      rw [assocFind_cons, if_neg (by omega)]
      exact hh
    · refine Or.inr ⟨s.nextAddr,
        .proxy a ro sh (getTargetType s a = TargetType.COLLECTION : Bool), ?_, ?_⟩
      · rw [heap_insertMap]
      · exact assocFind_fresh hW (le_refl _)
    · intro sel2
      by_cases hss : sel2 = sel
      · subst hss
        refine Or.inr ⟨a, s.nextAddr, ?_⟩
        rw [getMap_insertMap_same, getMap_set_heap]
      · rw [getMap_insertMap_other hss, getMap_set_heap]
        exact Or.inl rfl

/-- C9: no constructor call structurally mutates any existing object — the
target's own properties are exactly as before, the only heap change is the
allocation of the fresh wrapper, and the only other state change is a single
registry insertion. -/
theorem C9_wrapping_no_mutation {s : State} (hW : WF s) (m : Mode) (t : Value)
    {w : Value} {s' : State} (heq : construct m s t = (w, s')) :
    (∀ b ho, assocFind b s.heap = some ho → assocFind b s'.heap = some ho) ∧
    (s'.heap = s.heap ∨ ∃ q ho, s'.heap = (q, ho) :: s.heap ∧ assocFind q s.heap = none) ∧
    (∀ sel2 : MapSel, getMap s' sel2 = getMap s sel2 ∨
      ∃ k p, getMap s' sel2 = (k, p) :: getMap s sel2) := by
  cases m with
  | mutableDeep =>
    have heq' : reactive s t = (w, s') := heq
    unfold reactive at heq'
    by_cases hro : isReadonly s t = true
    · rw [if_pos hro] at heq'
      injection heq' with h1 h2
      subst h2
      exact ⟨fun b ho hh => hh, Or.inl rfl, fun sel2 => Or.inl rfl⟩
    · rw [if_neg hro] at heq'
      exact cro_frame hW t false false .reactiveM heq'
  | mutableShallow => exact cro_frame hW t false true .shallowReactiveM heq
  | readonlyDeep => exact cro_frame hW t true false .readonlyM heq
  | readonlyShallow => exact cro_frame hW t true true .shallowReadonlyM heq

/-- Closed witness for C9: a readonly wrap of the sample object. -/
theorem C9_witness :
    (∀ b ho, assocFind b sampleState.heap = some ho →
      assocFind b (construct .readonlyDeep sampleState (.vobj 0)).2.heap = some ho) ∧
    ((construct .readonlyDeep sampleState (.vobj 0)).2.heap = sampleState.heap ∨
      ∃ q ho, (construct .readonlyDeep sampleState (.vobj 0)).2.heap =
        (q, ho) :: sampleState.heap ∧ assocFind q sampleState.heap = none) ∧
    (∀ sel2 : MapSel,
      getMap (construct .readonlyDeep sampleState (.vobj 0)).2 sel2 =
        getMap sampleState sel2 ∨
      ∃ k p, getMap (construct .readonlyDeep sampleState (.vobj 0)).2 sel2 =
        (k, p) :: getMap sampleState sel2) :=
  @C9_wrapping_no_mutation sampleState (by decide) .readonlyDeep (.vobj 0)
    (construct .readonlyDeep sampleState (.vobj 0)).1
    (construct .readonlyDeep sampleState (.vobj 0)).2 rfl

/-!
## C10 — flag keys are read as ordinary own properties (spoofable)
-/

/-- A factory call on a plain object with a truthy own `__v_raw` property
takes the wrapper early return whenever the mode is not readonly or the own
`__v_isReactive` property is falsy. -/
theorem cro_spoofed_raw {s : State} {a : Nat} {d : ObjData}
    (ha : assocFind a s.heap = some (.plain d))
    (hraw : truthy (plainProp d .raw) = true) {ro : Bool} (sh : Bool) (sel : MapSel)
    (hcond : ro = false ∨ truthy (plainProp d .isReactiveF) = false) :
    createReactiveObject s (.vobj a) ro sh sel = (.vobj a, s) := by
  have h1 : getProp s (.vobj a) .raw = plainProp d .raw := by
    unfold getProp
    exact getPropFuel_plain ha _ _
  have h2 : getProp s (.vobj a) .isReactiveF = plainProp d .isReactiveF := by
    unfold getProp
    exact getPropFuel_plain ha _ _
  have hg : (truthy (getProp s (.vobj a) .raw) &&
      !(ro && truthy (getProp s (.vobj a) .isReactiveF))) = true := by
    rw [h1, h2, hraw]
    rcases hcond with h | h
    · rw [h]
      rfl
    · rw [h]
      simp
  unfold createReactiveObject
  dsimp only
  rw [if_pos hg]

/-- C10: the factory and the predicates read the reserved flag keys as
ordinary own properties, so a spoofing plain object is indistinguishable from
a wrapper: a never-wrapped object with a truthy own `__v_raw` is returned
unchanged by every constructor (except the readonly modes when it also has a
truthy own `__v_isReactive`) and `isProxy` reports true on it; a plain object
with a truthy own `__v_isReadonly` is returned unchanged by `reactive` and
reported readonly by `isReadonly`. -/
theorem C10_flag_spoofing {s : State} {a : Nat} {d : ObjData}
    (ha : assocFind a s.heap = some (.plain d)) :
    (truthy (plainProp d .raw) = true →
      isProxy s (.vobj a) = true ∧
      reactive s (.vobj a) = (.vobj a, s) ∧
      shallowReactive s (.vobj a) = (.vobj a, s) ∧
      (d.ownIsReactive = false →
        readonly s (.vobj a) = (.vobj a, s) ∧
        shallowReadonly s (.vobj a) = (.vobj a, s))) ∧
    (d.ownIsReadonly = true →
      reactive s (.vobj a) = (.vobj a, s) ∧ isReadonly s (.vobj a) = true) := by
  constructor
  · intro hraw
    have hproxy : isProxy s (.vobj a) = true := by
      unfold isProxy getProp
      rw [getPropFuel_plain ha, hraw]
      rfl
    have hreac : reactive s (.vobj a) = (.vobj a, s) := by
      unfold reactive
      rw [isReadonly_plain ha]
      by_cases hro : d.ownIsReadonly = true
      · rw [hro]
        simp
      · have hro' : d.ownIsReadonly = false := by revert hro; cases d.ownIsReadonly <;> simp
        rw [hro']
        simp only [Bool.false_eq_true, if_false]
        exact cro_spoofed_raw ha hraw false .reactiveM (Or.inl rfl)
    refine ⟨hproxy, hreac, cro_spoofed_raw ha hraw true .shallowReactiveM (Or.inl rfl), ?_⟩
    intro hre
    have hfalsy : truthy (plainProp d .isReactiveF) = false := by
      simp [plainProp, hre, truthy]
    exact ⟨cro_spoofed_raw ha hraw false .readonlyM (Or.inr hfalsy),
      cro_spoofed_raw ha hraw true .shallowReadonlyM (Or.inr hfalsy)⟩
  · intro hro
    refine ⟨?_, ?_⟩
    · unfold reactive
      rw [isReadonly_plain ha, hro]
      simp
    · rw [isReadonly_plain ha]
      exact hro

/-- A spoofing plain object: never wrapped, but carrying a truthy own
`__v_raw`. -/
def spoofObj : ObjData :=
  ⟨"Object", true, false, false, false, false, some (.vbool true)⟩

/-- A plain object spoofing `__v_isReadonly`. -/
def spoofObjRO : ObjData :=
  ⟨"Object", true, false, false, true, false, none⟩

def spoofState : State :=
  ⟨[(0, .plain spoofObj), (1, .plain spoofObjRO)], [], [], [], [], 2⟩

/-- Closed witness for C10 on the two spoofing objects. -/
theorem C10_witness :
    (isProxy spoofState (.vobj 0) = true ∧
      reactive spoofState (.vobj 0) = (.vobj 0, spoofState) ∧
      shallowReactive spoofState (.vobj 0) = (.vobj 0, spoofState) ∧
      readonly spoofState (.vobj 0) = (.vobj 0, spoofState) ∧
      shallowReadonly spoofState (.vobj 0) = (.vobj 0, spoofState)) ∧
    (reactive spoofState (.vobj 1) = (.vobj 1, spoofState) ∧
      isReadonly spoofState (.vobj 1) = true) := by
  have h0 := @C10_flag_spoofing spoofState 0 spoofObj (by decide)
  have h1 := @C10_flag_spoofing spoofState 1 spoofObjRO (by decide)
  have hr := h0.1 (by decide)
  exact ⟨⟨hr.1, hr.2.1, hr.2.2.1, (hr.2.2.2 (by decide)).1, (hr.2.2.2 (by decide)).2⟩,
    h1.2 (by decide)⟩

end VueReactivity

